import Mathlib

/-!
Verification of the nascar-stats repository core components against its
natural-language specification.

The Python sources are shallowly embedded:
* `build_fantasy.py`   — fantasy scoring engine (`calculate_fantasy_scores`)
* `query.py`/`report.py` — budget-constrained lineup optimizer
* `load_segment.py`    — salary scraper and fuzzy driver-identity resolver
* `fetch_races.py`     — reference-graph ingestion client (with fetch trace)

SQLite tables are embedded as Lean lists of typed rows; `INSERT OR IGNORE`
under a UNIQUE constraint becomes insert-if-absent; numeric DB values are
`Int`, nullable columns are `Option Int`; Python dict lookup with default
becomes association-list lookup with default.
-/

namespace Nascar

/-! ### Scoring engine: `build_fantasy.py` -/

/-- `RACE_PTS` dict from `build_fantasy.py` lines 29-39: exact fantasy race
points per finishing position 1..41. -/
def RACE_PTS : List (Int × Int) :=
  [(1, 300), (2, 250), (3, 220), (4, 200), (5, 180),
   (6, 160), (7, 150), (8, 146), (9, 142), (10, 138),
   (11, 134), (12, 130), (13, 126), (14, 122), (15, 118),
   (16, 114), (17, 110), (18, 106), (19, 102), (20, 98),
   (21, 94), (22, 90), (23, 86), (24, 82), (25, 78),
   (26, 74), (27, 70), (28, 66), (29, 62), (30, 58),
   (31, 54), (32, 50), (33, 45), (34, 40), (35, 35),
   (36, 30), (37, 25), (38, 20), (39, 15), (40, 10),
   (41, 5)]

/-- `QUAL_PTS` dict from `build_fantasy.py` lines 41-45: qualifying points
per start position 1..15. -/
def QUAL_PTS : List (Int × Int) :=
  [(1, 75), (2, 50), (3, 45), (4, 40), (5, 35),
   (6, 30), (7, 25), (8, 20), (9, 15), (10, 10),
   (11, 8), (12, 6), (13, 4), (14, 2), (15, 1)]

def RACE_LEADER_BONUS : Int := 100

def QUAL_LEADER_BONUS : Int := 25

/-- Python `dict.get(k, default)` on an integer-keyed dict embedded as an
association list. -/
def dictGet (d : List (Int × Int)) (k : Int) (default : Int) : Int :=
  (d.lookup k).getD default

/-- One row of the `race_results` table as read by the scoring engine
(`SELECT driver_id, finish_pos, start_pos, laps_led ... WHERE race_id = ?`).
Nullable integer columns are `Option Int`. -/
structure ResultRow where
  race_id : String
  driver_id : Int
  finish_pos : Option Int
  start_pos : Option Int
  laps_led : Option Int
deriving DecidableEq, Repr

/-- One row of the `fantasy_scores` table (columns inserted by
`calculate_fantasy_scores`). -/
structure ScoreRow where
  race_id : String
  driver_id : Int
  qualifying_pts : Int
  race_pts : Int
  qual_leader_bonus : Int
  race_leader_bonus : Int
  total_pts : Int
deriving DecidableEq, Repr

/-- Python `(x or 0)` on an int-or-None value: `None` and `0` are falsy and
give `0`, any other integer gives itself (so this is `Option.getD 0`). -/
def orZero : Option Int → Int
  | none => 0
  | some v => v

/-- `race_pts = RACE_PTS.get(finish_pos, 0) if finish_pos else 0`
(`build_fantasy.py` line 261): `None` and `0` are falsy. -/
def racePoints : Option Int → Int
  | none => 0
  | some v => if v = 0 then 0 else dictGet RACE_PTS v 0

/-- `qual_pts = QUAL_PTS.get(start_pos, 0) if start_pos else 0`
(`build_fantasy.py` line 262). -/
def qualPoints : Option Int → Int
  | none => 0
  | some v => if v = 0 then 0 else dictGet QUAL_PTS v 0

/-- `max_laps = max((r[3] or 0) for r in results)` (`build_fantasy.py`
line 255); only evaluated on non-empty `results` (the `[]` case is dead). -/
def maxLapsLed : List ResultRow → Int
  | [] => 0
  | r :: rs => rs.foldl (fun m x => max m (orZero x.laps_led)) (orZero r.laps_led)

/-- `leader_ids = set(r[0] for r in results if (r[3] or 0) == max_laps and
max_laps > 0)` (`build_fantasy.py` lines 256-258), kept as a list used only
for membership tests. -/
def leaderIds (results : List ResultRow) : List Int :=
  (results.filter
      (fun r => orZero r.laps_led == maxLapsLed results &&
                decide (0 < maxLapsLed results))).map
    (fun r => r.driver_id)

/-- The per-driver score computation of `build_fantasy.py` lines 260-265,
producing the row inserted into `fantasy_scores`. -/
def scoreRow (leader_ids : List Int) (r : ResultRow) : ScoreRow :=
  let race_pts := racePoints r.finish_pos
  let qual_pts := qualPoints r.start_pos
  let ql_bonus : Int := if r.start_pos = some 1 then QUAL_LEADER_BONUS else 0
  let rl_bonus : Int := if r.driver_id ∈ leader_ids then RACE_LEADER_BONUS else 0
  ⟨r.race_id, r.driver_id, qual_pts, race_pts, ql_bonus, rl_bonus,
    race_pts + qual_pts + ql_bonus + rl_bonus⟩

/-- The slice of the store that `calculate_fantasy_scores` reads and writes:
the `races` table (ids), the `race_results` table and the `fantasy_scores`
table. -/
structure Store where
  races : List String
  race_results : List ResultRow
  fantasy_scores : List ScoreRow
deriving DecidableEq, Repr

/-- `INSERT OR IGNORE INTO fantasy_scores ...` under the
`UNIQUE (race_id, driver_id)` constraint (`build_fantasy.py` lines 267-272):
the row is appended unless a row with the same key already exists. -/
def insertScoreIfAbsent (fs : List ScoreRow) (row : ScoreRow) : List ScoreRow :=
  if fs.any (fun x => x.race_id == row.race_id && x.driver_id == row.driver_id)
  then fs else fs ++ [row]

/-- `SELECT driver_id, finish_pos, start_pos, laps_led FROM race_results
WHERE race_id = ?` (`build_fantasy.py` lines 245-249). -/
def resultsFor (results : List ResultRow) (rid : String) : List ResultRow :=
  results.filter (fun r => r.race_id == rid)

/-- The body of the per-race loop of `calculate_fantasy_scores`
(`build_fantasy.py` lines 243-274): skip races with no results, otherwise
compute the leader set and insert one score row per result. -/
def scoreRace (results : List ResultRow) (fs : List ScoreRow) : List ScoreRow :=
  if results.isEmpty then fs
  else
    results.foldl
      (fun acc r => insertScoreIfAbsent acc (scoreRow (leaderIds results) r)) fs

/-- `EXISTS (SELECT 1 FROM fantasy_scores fs WHERE fs.race_id = r.id)`. -/
def hasScores (fs : List ScoreRow) (rid : String) : Bool :=
  fs.any (fun x => x.race_id == rid)

/-- `SELECT r.id FROM races r WHERE NOT EXISTS (...)` (`build_fantasy.py`
lines 234-239): the races with zero fantasy-score rows, computed once up
front. -/
def unscoredRaces (s : Store) : List String :=
  s.races.filter (fun rid => !(hasScores s.fantasy_scores rid))

/-- `calculate_fantasy_scores` (`build_fantasy.py` lines 232-277) as a store
transformer. -/
def calculate_fantasy_scores (s : Store) : Store :=
  { s with
    fantasy_scores :=
      (unscoredRaces s).foldl
        (fun fs rid => scoreRace (resultsFor s.race_results rid) fs)
        s.fantasy_scores }

/-! ### Lineup optimizer: `query.py` `fantasy_optimizer` / `report.py`
`get_optimizer`

A candidate row from the SQL query is `(display_name, salary, avg_pts)`.
SQLite's one-decimal average points are embedded as exact integers — the
optimizer only adds and compares them, which is order-isomorphic. -/

abbrev DriverRow := String × Int × Int

/-- A `(total_pts, total_salary, combo)` tuple as appended to `best`
(`query.py` line 324 / `report.py` line 69). -/
abbrev LineupTuple := Int × Int × List DriverRow

/-- `itertools.combinations(rows, k)` in its documented emission order
(lexicographic order of positions). -/
def combinations : Nat → List DriverRow → List (List DriverRow)
  | 0, _ => [[]]
  | _ + 1, [] => []
  | n + 1, x :: xs => (combinations n xs).map (x :: ·) ++ combinations (n + 1) xs

/-- The feasibility filter of `query.py` lines 319-324: enumerate all
4-driver combinations, skip those with summed salary over 100, and record
`(total_pts, total_salary, combo)` for the rest. -/
def feasibleLineups (pool : List DriverRow) : List LineupTuple :=
  (combinations 4 pool).filterMap (fun c =>
    if (c.map (fun r => r.2.1)).sum > 100 then none
    else some ((c.map (fun r => r.2.2)).sum, (c.map (fun r => r.2.1)).sum, c))

/-- The lexicographic key under which Python compares a driver row
(a `(str, int, int)` tuple). -/
def rowKey (r : DriverRow) : String ×ₗ Int ×ₗ Int := toLex (r.1, toLex (r.2.1, r.2.2))

/-- The lexicographic key under which Python compares a
`(total_pts, total_salary, combo)` tuple: first points, then salary, then
the combo's rows lexicographically. -/
def tupKey (t : LineupTuple) : Int ×ₗ Int ×ₗ List (String ×ₗ Int ×ₗ Int) :=
  toLex (t.1, toLex (t.2.1, t.2.2.map rowKey))

/-- `best.sort(reverse=True)` orders by Python tuple comparison,
descending: `a` may precede `b` iff `a`'s full tuple key is `≥` `b`'s.
Since `tupKey` is injective, comparison-equal tuples are equal and Python's
stably sorted result is the unique `pyDescGe`-sorted permutation. -/
def pyDescGe (a b : LineupTuple) : Prop := tupKey b ≤ tupKey a

instance : DecidableRel pyDescGe :=
  fun a b => inferInstanceAs (Decidable (tupKey b ≤ tupKey a))

instance : IsTrans LineupTuple pyDescGe :=
  ⟨fun _ _ _ h1 h2 => le_trans h2 h1⟩

instance : IsTotal LineupTuple pyDescGe :=
  ⟨fun a b => le_total (tupKey b) (tupKey a)⟩

/-- `fantasy_optimizer` of `query.py` lines 317-332 (identically
`get_optimizer` of `report.py` lines 63-71): filter to feasible 4-driver
combinations, sort the `(pts, salary, combo)` tuples descending by Python
tuple comparison, return the first five. -/
def fantasy_optimizer (pool : List DriverRow) : List LineupTuple :=
  (List.insertionSort pyDescGe (feasibleLineups pool)).take 5

/-! ### Driver identity resolver: `load_segment.py` `match_driver`

`difflib.SequenceMatcher(...).ratio()` is Python standard-library code
external to the repository, so it enters the embedding as an abstract
similarity function `ratio` into the exact rationals (floats idealized as
`ℚ`). The resolver's own logic — lowercasing both names, the strict-argmax
loop and the `0.78` acceptance threshold (`load_segment.py` lines
91-111) — is embedded exactly, parameterized by `ratio`. -/

/-- `similarity(a, b) = SequenceMatcher(None, a.lower(), b.lower()).ratio()`
(`load_segment.py` lines 91-92), with the matcher abstracted as `ratio`. -/
def similarity (ratio : String → String → ℚ) (a b : String) : ℚ :=
  ratio a.toLower b.toLower

/-- One iteration of the `for driver_id, display_name in all_drivers` loop
of `match_driver`: update `(best_id, best_name, best_score)` when
`score > best_score` (strict, so the first maximum is kept). -/
def matchStep (ratio : String → String → ℚ) (scraped_name : String)
    (b : Option Int × Option String × ℚ) (d : Int × String) :
    Option Int × Option String × ℚ :=
  if b.2.2 < similarity ratio scraped_name d.2
  then (some d.1, some d.2, similarity ratio scraped_name d.2) else b

/-- `match_driver` (`load_segment.py` lines 95-111): run the argmax loop
from `(None, None, 0.0)` and return the best record iff
`best_score >= 0.78`, otherwise `None`. -/
def match_driver (ratio : String → String → ℚ) (scraped_name : String)
    (all_drivers : List (Int × String)) :
    Option (Option Int × Option String × ℚ) :=
  let best := all_drivers.foldl (matchStep ratio scraped_name) (none, none, 0)
  if (78 : ℚ) / 100 ≤ best.2.2 then some best else none

/-! ### Salary scraper: `load_segment.py` `scrape_salaries`

The extraction regex (`load_segment.py` line 75) is
`([A-Z][a-zA-Z]+(?:[\s\.\-'][a-zA-Z]+)+)\s*[,\-]?\s*\$(\d+)`.
On this particular pattern greedy matching is deterministic: every
repeated class is disjoint from the characters that may legally follow it
(letters never overlap separators, and after dropping a trailing
`(separator letters+)` unit the remainder starts with a separator followed
by a letter, which `\s*[,\-]?\s*\$` can never absorb before the required
`$`), so maximal munch without backtracking computes exactly the Python
match. `re.finditer` is: attempt a match at each position, resume after
the match on success, advance one character on failure; it is embedded
with explicit fuel (one unit per character of the input, which suffices
because every match consumes at least one character). The `\s` class is
embedded as the six ASCII whitespace characters. -/

/-- Python's `\s` on the characters that occur in ASCII text. -/
def pyIsSpace (c : Char) : Bool :=
  c == ' ' || c == '\t' || c == '\n' || c == '\r' || c == '\x0b' || c == '\x0c'

/-- The name-token separator class `[\s\.\-']` of the regex. -/
def isSepChar (c : Char) : Bool :=
  pyIsSpace c || c == '.' || c == '-' || c == '\''

/-- Greedy matching of `(?:[\s\.\-'][a-zA-Z]+)*` (the `+` is enforced by
the caller checking non-emptiness): returns the consumed text and the
rest. Each iteration consumes at least two characters (a separator and a
non-empty letter run), so fuel of one unit per input character suffices;
`munchUnitsGo_fuel_eq` below proves the fuel irrelevant. -/
def munchUnitsGo : Nat → List Char → List Char × List Char
  | 0, l => ([], l)
  | _ + 1, [] => ([], [])
  | fuel + 1, c :: cs =>
    if isSepChar c then
      if (cs.takeWhile Char.isAlpha).isEmpty then ([], c :: cs)
      else
        let p := munchUnitsGo fuel (cs.dropWhile Char.isAlpha)
        (c :: (cs.takeWhile Char.isAlpha ++ p.1), p.2)
    else ([], c :: cs)

def munchUnits (l : List Char) : List Char × List Char :=
  munchUnitsGo l.length l

/-- `int(...)` on the digit string captured by `(\d+)`. -/
def digitsToNat (ds : List Char) : Nat :=
  ds.foldl (fun a c => a * 10 + (c.toNat - 48)) 0

/-- `\s*`. -/
def skipSpaces (l : List Char) : List Char := l.dropWhile pyIsSpace

/-- `[,\-]?`, taken greedily (if taking it kills the match, skipping it
would require `$` at a `,`/`-` character and fail too). -/
def skipComma : List Char → List Char
  | d :: ds => if d == ',' || d == '-' then ds else d :: ds
  | [] => []

/-- Matching of the suffix `\s*[,\-]?\s*\$(\d+)` after group 1; returns
the price and the unconsumed rest. -/
def matchSuffix (r2 : List Char) : Option (Nat × List Char) :=
  match skipSpaces (skipComma (skipSpaces r2)) with
  | '$' :: r6 =>
    if (r6.takeWhile Char.isDigit).isEmpty then none
    else some (digitsToNat (r6.takeWhile Char.isDigit), r6.dropWhile Char.isDigit)
  | _ => none

/-- Attempt the salary regex at the start of `l`; on success return the
raw group-1 text, the value of group 2 and the unconsumed rest. -/
def matchAt (l : List Char) : Option (List Char × Nat × List Char) :=
  match l with
  | [] => none
  | c :: cs =>
    if c.isUpper then
      if (cs.takeWhile Char.isAlpha).isEmpty then none
      else
        if (munchUnits (cs.dropWhile Char.isAlpha)).1.isEmpty then none
        else
          match matchSuffix (munchUnits (cs.dropWhile Char.isAlpha)).2 with
          | some (price, rest) =>
            some (c :: (cs.takeWhile Char.isAlpha ++
                (munchUnits (cs.dropWhile Char.isAlpha)).1), price, rest)
          | none => none
    else none

/-- `re.finditer` driver with explicit fuel (see section comment). -/
def findMatchesGo : Nat → List Char → List (List Char × Nat)
  | 0, _ => []
  | _ + 1, [] => []
  | fuel + 1, c :: cs =>
    match matchAt (c :: cs) with
    | some (nm, price, rest) => (nm, price) :: findMatchesGo fuel rest
    | none => findMatchesGo fuel cs

/-- All raw `(group1, price)` matches of the salary regex over `text`. -/
def findMatches (text : List Char) : List (List Char × Nat) :=
  findMatchesGo text.length text

/-- Python `str.split()` with no argument: split on whitespace runs,
dropping empty tokens. Fuel of one unit per input character suffices;
`pySplitGo_fuel_eq` below proves the fuel irrelevant. -/
def pySplitGo : Nat → List Char → List (List Char)
  | 0, _ => []
  | _ + 1, [] => []
  | fuel + 1, c :: cs =>
    if pyIsSpace c then pySplitGo fuel cs
    else (c :: cs.takeWhile (fun x => !pyIsSpace x)) ::
      pySplitGo fuel (cs.dropWhile (fun x => !pyIsSpace x))

def pySplit (l : List Char) : List (List Char) :=
  pySplitGo l.length l

/-- Python `" ".join(tokens)`. -/
def joinSpace : List (List Char) → List Char
  | [] => []
  | [t] => t
  | t :: ts => t ++ ' ' :: joinSpace ts

/-- `" ".join(name.split())` — whitespace normalization of a scraped name
(`load_segment.py` line 80). -/
def normName (l : List Char) : List Char := joinSpace (pySplit l)

/-- The accept-and-dedup loop of `scrape_salaries` (`load_segment.py`
lines 79-84): keep a pair iff its price is in `[1, 60]` and the name has
not been accepted before in this scrape. -/
def scrapeFilter : List (List Char × Nat) → List (List Char) → List (List Char × Nat)
  | [], _ => []
  | (n, p) :: rest, seen =>
    if 1 ≤ p ∧ p ≤ 60 ∧ ¬ n ∈ seen then (n, p) :: scrapeFilter rest (n :: seen)
    else scrapeFilter rest seen

/-- The normalized `(name, price)` stream produced by the `finditer` loop
before filtering. -/
def rawPairs (text : List Char) : List (List Char × Nat) :=
  (findMatches text).map (fun m => (normName m.1, m.2))

/-- `scrape_salaries` (`load_segment.py` lines 59-86) restricted to its
pure part: from the tag-stripped page text to the accepted
`(name, price)` list. (The HTTP fetch and HTML-to-text step are excluded
collaborators per the spec.) -/
def scrape_salaries_text (text : List Char) : List (List Char × Nat) :=
  scrapeFilter (rawPairs text) []

/-- Modelled from the spec: the claim's name shape, read from the spec's
words "a run of capitalized word-tokens" — every whitespace-separated
token of the name begins with an uppercase letter. Used to compare the
claimed shape with what the code accepts. -/
def specCapitalizedTokens (n : List Char) : Bool :=
  (pySplit n).all (fun t =>
    match t with
    | [] => true
    | c :: _ => c.isUpper)

/-! ### Reference-graph ingestion: `fetch_races.py`

The HTTP transport is the spec's excluded capability
`fetch(url) → JSON or failure`; `get` (one bounded retry, lines 30-45)
collapses into it, so each endpoint of the remote API is a function into
`Option` of a typed payload (per the spec's design note on typed records
for the dict-shaped JSON), where `none` covers both failure after retry
and an error-flagged payload. Every remote call performed is recorded in
an explicit request trace, which makes the caching claims ("an entity in
the cache is never re-fetched") statable. The unbounded pagination loop
of `get_all_pages` carries explicit fuel (one unit per page request). -/

structure DriverData where
  firstName : String
  lastName : String
  displayName : String
deriving DecidableEq, Repr

structure VenueData where
  fullName : Option String
  city : Option String
  state : Option String
  length : Option Int
  shape : Option String
deriving DecidableEq, Repr

/-- A competitor entry of the competition detail payload
(`fetch_races.py` lines 214-226). `id = 0` encodes `int(c.get("id", 0))`
for a missing id; `statsRef = ""` encodes a missing statistics `$ref`. -/
structure CompetitorData where
  id : Int
  order : Option Int
  startOrder : Option Int
  number : Option String
  manufacturer : Option String
  team : Option String
  statsRef : String
deriving DecidableEq, Repr

structure CompData where
  competitors : List CompetitorData
deriving DecidableEq, Repr

structure StatEntry where
  name : String
  value : Option Int
deriving DecidableEq, Repr

/-- `splits.categories`, each category being its list of stats. -/
structure StatsData where
  categories : List (List StatEntry)
deriving DecidableEq, Repr

structure EventData where
  id : String
  name : String
  date : String
  venues : List String
  competitions : List String
deriving DecidableEq, Repr

structure PageData where
  items : List String
  pageIndex : Int
  pageCount : Int
deriving DecidableEq, Repr

/-- The remote API boundary: one field per endpoint; `none` is a failed
or error-flagged fetch (after the one retry inside `get`). -/
structure Remote where
  eventsPage : Int → Int → Option PageData
  event : String → Option EventData
  venue : String → Option VenueData
  competition : String → Option CompData
  athlete : Int → Int → Option DriverData
  stats : String → Option StatsData

/-- One remote request, as recorded in the trace. -/
inductive Req where
  | eventsPage (year page : Int)
  | event (ref : String)
  | venue (ref : String)
  | competition (ref : String)
  | athlete (year driver_id : Int)
  | stats (ref : String)
deriving DecidableEq, Repr

structure TrackRow where
  id : Int
  full_name : Option String
  city : Option String
  state : Option String
  length : Option Int
  shape : Option String
deriving DecidableEq, Repr

structure DriverTableRow where
  id : Int
  first_name : String
  last_name : String
  display_name : String
deriving DecidableEq, Repr

structure RaceRow where
  id : String
  year : Int
  name : String
  date : String
  track_id : Option Int
  race_num : Int
deriving DecidableEq, Repr

structure RaceResultRow where
  race_id : String
  driver_id : Int
  finish_pos : Option Int
  start_pos : Option Int
  laps_completed : Option Int
  laps_led : Option Int
  championship_pts : Option Int
  bonus_pts : Option Int
  penalty_pts : Option Int
  car_number : Option String
  manufacturer : Option String
  team : Option String
deriving DecidableEq, Repr

/-- The tables `fetch_races.py` reads and writes. -/
structure RaceStore where
  tracks : List TrackRow
  drivers : List DriverTableRow
  races : List RaceRow
  race_results : List RaceResultRow
deriving DecidableEq, Repr

/-- The in-run state: the store, the three caches loaded by `main`
(`done_races` is loaded and announced as "will skip these" but never
consulted afterwards — mirrored faithfully), and the request trace. -/
structure FetchState where
  store : RaceStore
  venue_cache : List Int
  known_drivers : List Int
  done_races : List String
  trace : List Req
deriving DecidableEq, Repr

def addTrace (st : FetchState) (r : Req) : FetchState :=
  { st with trace := st.trace ++ [r] }

def insertTrackIfAbsent (ts : List TrackRow) (t : TrackRow) : List TrackRow :=
  if ts.any (fun x => x.id == t.id) then ts else ts ++ [t]

def insertDriverIfAbsent (ds : List DriverTableRow) (d : DriverTableRow) :
    List DriverTableRow :=
  if ds.any (fun x => x.id == d.id) then ds else ds ++ [d]

def insertRaceIfAbsent (rs : List RaceRow) (r : RaceRow) : List RaceRow :=
  if rs.any (fun x => x.id == r.id) then rs else rs ++ [r]

def insertResultIfAbsent (rs : List RaceResultRow) (r : RaceResultRow) :
    List RaceResultRow :=
  if rs.any (fun x => x.race_id == r.race_id && x.driver_id == r.driver_id)
  then rs else rs ++ [r]

/-- `re.search(r"/venues/(\d+)", venue_ref)`: scan left to right for the
literal `/venues/` followed by at least one digit. -/
def findVenueIdGo : Nat → List Char → Option Int
  | 0, _ => none
  | _ + 1, [] => none
  | fuel + 1, c :: cs =>
    if ("/venues/".toList.isPrefixOf (c :: cs) &&
        !(((c :: cs).drop 8).takeWhile Char.isDigit).isEmpty) then
      some (Int.ofNat (digitsToNat (((c :: cs).drop 8).takeWhile Char.isDigit)))
    else findVenueIdGo fuel cs

def findVenueId (ref : String) : Option Int :=
  findVenueIdGo ref.toList.length ref.toList

/-- `fetch_venue` (`fetch_races.py` lines 121-150): extract the venue id
from the ref URL; a cached id short-circuits with no remote call; a
failed fetch returns `None` without caching; a successful fetch inserts
the track and caches the id. -/
def fetch_venue (remote : Remote) (st : FetchState) (venue_ref : String) :
    Option Int × FetchState :=
  match findVenueId venue_ref with
  | none => (none, st)
  | some vid =>
    if vid ∈ st.venue_cache then (some vid, st)
    else
      let st := addTrace st (Req.venue venue_ref)
      match remote.venue venue_ref with
      | none => (none, st)
      | some data =>
        (some vid,
          { st with
            store := { st.store with
              tracks := insertTrackIfAbsent st.store.tracks
                ⟨vid, data.fullName, data.city, data.state, data.length,
                  data.shape⟩ },
            venue_cache := st.venue_cache ++ [vid] })

/-- `ensure_driver` (`fetch_races.py` lines 154-172): a cached id returns
immediately; otherwise the athlete endpoint is fetched, a driver row is
inserted only on success, and — success or failure — the id is added to
`known_drivers`. -/
def ensure_driver (remote : Remote) (st : FetchState) (driver_id : Int)
    (year : Int) : FetchState :=
  if driver_id ∈ st.known_drivers then st
  else
    let st := addTrace st (Req.athlete year driver_id)
    let st :=
      match remote.athlete year driver_id with
      | some d =>
        { st with
          store := { st.store with
            drivers := insertDriverIfAbsent st.store.drivers
              ⟨driver_id, d.firstName, d.lastName, d.displayName⟩ } }
      | none => st
    { st with known_drivers := st.known_drivers ++ [driver_id] }

/-- `extract_stat` (`fetch_races.py` lines 65-72): first stat entry with
the given name, across all categories in order. -/
def extract_stat (cats : List (List StatEntry)) (stat_name : String) :
    Option Int :=
  match cats.flatten.find? (fun s => s.name == stat_name) with
  | some s => s.value
  | none => none

/-- The Python dict `driver_positions[did] = {...}`: later assignment for
the same key overwrites in place, first insertion fixes the position. -/
def upsertPosition (l : List (Int × CompetitorData)) (k : Int)
    (v : CompetitorData) : List (Int × CompetitorData) :=
  if l.any (fun p => p.1 == k) then
    l.map (fun p => if p.1 == k then (k, v) else p)
  else l ++ [(k, v)]

/-- Building `driver_positions` (`fetch_races.py` lines 213-226):
competitors with id 0 (missing) are skipped. -/
def driverPositions (competitors : List CompetitorData) :
    List (Int × CompetitorData) :=
  competitors.foldl
    (fun acc c => if c.id == 0 then acc else upsertPosition acc c.id c) []

/-- The per-driver statistics fetch inside the results loop
(`fetch_races.py` lines 235-247): no `$ref` means all-`None` stats. -/
def fetchDriverStats (remote : Remote) (st : FetchState) (stats_ref : String) :
    (Option Int × Option Int × Option Int × Option Int × Option Int) ×
      FetchState :=
  if stats_ref = "" then ((none, none, none, none, none), st)
  else
    let st := addTrace st (Req.stats stats_ref)
    match remote.stats stats_ref with
    | none => ((none, none, none, none, none), st)
    | some sd =>
      ((extract_stat sd.categories ("lapsCompleted"),
        extract_stat sd.categories ("lapsLead"),
        extract_stat sd.categories ("championshipPts"),
        extract_stat sd.categories ("bonus"),
        extract_stat sd.categories ("penaltyPts")), st)

/-- One iteration of the `for driver_id, info in driver_positions.items()`
loop (`fetch_races.py` lines 232-261): ensure the driver, fetch the
statistics, insert the result row (regardless of whether the driver
lookup succeeded). -/
def processCompetitor (remote : Remote) (race_id : String) (year : Int)
    (st : FetchState) (p : Int × CompetitorData) : FetchState :=
  let st := ensure_driver remote st p.1 year
  let res := fetchDriverStats remote st p.2.statsRef
  { res.2 with
    store := { res.2.store with
      race_results := insertResultIfAbsent res.2.store.race_results
        ⟨race_id, p.1, p.2.order, p.2.startOrder, res.1.1, res.1.2.1,
          res.1.2.2.1, res.1.2.2.2.1, res.1.2.2.2.2, p.2.number,
          p.2.manufacturer, p.2.team⟩ } }

/-- `fetch_race` (`fetch_races.py` lines 176-265). Note: the event detail
is fetched unconditionally — nothing consults `done_races` first. -/
def fetch_race (remote : Remote) (st : FetchState) (event_ref : String)
    (year : Int) (race_num : Int) : FetchState :=
  let st := addTrace st (Req.event event_ref)
  match remote.event event_ref with
  | none => st
  | some ev =>
    let tr :=
      match ev.venues with
      | [] => ((none : Option Int), st)
      | vref :: _ =>
        if vref ≠ "" then fetch_venue remote st vref else (none, st)
    match ev.competitions with
    | [] => tr.2
    | comp_ref :: _ =>
      let st2 :=
        { tr.2 with
          store := { tr.2.store with
            races := insertRaceIfAbsent tr.2.store.races
              ⟨ev.id, year, ev.name, ev.date.take 10, tr.1, race_num⟩ } }
      let cr :=
        if comp_ref ≠ "" then
          (remote.competition comp_ref, addTrace st2 (Req.competition comp_ref))
        else (none, st2)
      match cr.1 with
      | none => cr.2
      | some comp =>
        (driverPositions comp.competitors).foldl
          (processCompetitor remote ev.id year) cr.2

/-- `get_all_pages` (`fetch_races.py` lines 47-63) with explicit page
fuel: request pages `1, pageIndex+1, ...` until `pageIndex = pageCount`
or a page fails, accumulating items. -/
def get_all_pages_go (remote : Remote) (year : Int) :
    Nat → Int → List String → FetchState → List String × FetchState
  | 0, _, acc, st => (acc, st)
  | fuel + 1, page, acc, st =>
    let st := addTrace st (Req.eventsPage year page)
    match remote.eventsPage year page with
    | none => (acc, st)
    | some d =>
      if d.pageIndex < d.pageCount then
        get_all_pages_go remote year fuel (d.pageIndex + 1) (acc ++ d.items) st
      else (acc ++ d.items, st)

def get_all_pages (remote : Remote) (fuel : Nat) (year : Int)
    (st : FetchState) : List String × FetchState :=
  get_all_pages_go remote year fuel 1 [] st

/-- `fetch_year` (`fetch_races.py` lines 269-280): list the season's
events, then call `fetch_race` on every item with a non-empty ref —
regardless of `done_races`. -/
def fetch_year (remote : Remote) (fuel : Nat) (st : FetchState) (year : Int) :
    FetchState :=
  let pr := get_all_pages remote fuel year st
  (pr.1.foldl
    (fun (acc : FetchState × Int) ref =>
      (if ref ≠ "" then fetch_race remote acc.1 ref year acc.2 else acc.1,
        acc.2 + 1))
    (pr.2, 1)).1

def intRange (a b : Int) : List Int :=
  (List.range (b + 1 - a).toNat).map (fun i => a + i)

/-- `main` of `fetch_races.py` (lines 284-312): load the known-driver,
done-race and venue caches from the store, then fetch every year in the
range. -/
def sync_main (remote : Remote) (fuel : Nat) (store : RaceStore)
    (startYear endYear : Int) : FetchState :=
  let st : FetchState :=
    { store := store,
      venue_cache := store.tracks.map (fun t => t.id),
      known_drivers := store.drivers.map (fun d => d.id),
      done_races := store.races.map (fun r => r.id),
      trace := [] }
  (intRange startYear endYear).foldl (fun st y => fetch_year remote fuel st y) st

/-- A one-event remote world for exercising the resume path: season 2020
has a single page with a single event ref, whose event id `E1` is the
race already persisted in `demoStore`. -/
def demoRemote : Remote :=
  { eventsPage := fun y p =>
      if y == 2020 && p == 1 then some ⟨[("REF1" : String)], 1, 1⟩ else none,
    event := fun r =>
      if r == ("REF1" : String) then
        some ⟨("E1" : String), ("Daytona 500" : String),
          ("2020-02-16T19:00Z" : String), [], []⟩
      else none,
    venue := fun _ => none,
    competition := fun _ => none,
    athlete := fun _ _ => none,
    stats := fun _ => none }

/-- A store that already contains the race `E1` (a previously completed
run). -/
def demoStore : RaceStore :=
  { tracks := [],
    drivers := [],
    races := [⟨("E1" : String), 2020, ("Daytona 500" : String),
      ("2020-02-16" : String), none, 1⟩],
    race_results := [] }

/-! ### Store schema vs. the segment loader's save statements (C9)

`load_segment.py`'s save step issues SQL against the `segments` and
`driver_salaries` tables whose schema is created by
`build_fantasy.setup_tables`. SQLite raises `OperationalError` ("no such
column") when a statement references a column absent from the table. -/

inductive SqlOutcome where
  | ok
  | operationalError
deriving DecidableEq, Repr

structure TableSchema where
  table : String
  columns : List String
deriving DecidableEq, Repr

/-- `segments` as created by `setup_tables` (`build_fantasy.py` lines
130-136): `id, year, segment_num, race_keyword`. -/
def segmentsSchema : TableSchema :=
  ⟨("segments" : String),
    [("id" : String), ("year" : String), ("segment_num" : String),
      ("race_keyword" : String)]⟩

/-- `driver_salaries` as created by `setup_tables` (`build_fantasy.py`
lines 120-128). -/
def driverSalariesSchema : TableSchema :=
  ⟨("driver_salaries" : String),
    [("id" : String), ("driver_id" : String), ("year" : String),
      ("segment" : String), ("salary" : String)]⟩

/-- Executing a statement that references the given columns. -/
def execStmt (t : TableSchema) (referenced : List String) : SqlOutcome :=
  if referenced.all (fun c => t.columns.contains c) then SqlOutcome.ok
  else SqlOutcome.operationalError

/-- `DELETE FROM segments WHERE year = ? AND segment = ?`
(`load_segment.py` lines 217-220). -/
def segmentDeleteColumns : List String :=
  [("year" : String), ("segment" : String)]

/-- `INSERT INTO segments (segment, year, race_name, slug) VALUES (...)`
(`load_segment.py` lines 221-225). -/
def segmentInsertColumns : List String :=
  [("segment" : String), ("year" : String), ("race_name" : String),
    ("slug" : String)]

/-- `DELETE FROM driver_salaries WHERE year = ? AND segment = ?`
(`load_segment.py` lines 206-209). -/
def salaryDeleteColumns : List String :=
  [("year" : String), ("segment" : String)]

/-- `INSERT OR REPLACE INTO driver_salaries (driver_id, year, segment,
salary)` (`load_segment.py` lines 210-214). -/
def salaryInsertColumns : List String :=
  [("driver_id" : String), ("year" : String), ("segment" : String),
    ("salary" : String)]

end Nascar

namespace Nascar

/-! ### Theorems: scoring scales (C1) -/

theorem scoreRow_race_pts (L : List Int) (r : ResultRow) :
    (scoreRow L r).race_pts = racePoints r.finish_pos := rfl

theorem scoreRow_qual_pts (L : List Int) (r : ResultRow) :
    (scoreRow L r).qualifying_pts = qualPoints r.start_pos := rfl

theorem scoreRow_ql_bonus (L : List Int) (r : ResultRow) :
    (scoreRow L r).qual_leader_bonus =
      if r.start_pos = some 1 then QUAL_LEADER_BONUS else 0 := rfl

theorem scoreRow_rl_bonus (L : List Int) (r : ResultRow) :
    (scoreRow L r).race_leader_bonus =
      if r.driver_id ∈ L then RACE_LEADER_BONUS else 0 := rfl

theorem scoreRow_total (L : List Int) (r : ResultRow) :
    (scoreRow L r).total_pts =
      (scoreRow L r).race_pts + (scoreRow L r).qualifying_pts +
        (scoreRow L r).qual_leader_bonus + (scoreRow L r).race_leader_bonus := rfl

theorem lookup_some_mem {d : List (Int × Int)} {k v : Int}
    (h : d.lookup k = some v) : k ∈ d.map Prod.fst := by
  induction d with
  | nil => simp [List.lookup] at h
  | cons p rest ih =>
    obtain ⟨a, b⟩ := p
    rw [List.lookup] at h
    by_cases hk : (k == a) = true
    · simp only [List.map_cons, List.mem_cons]
      exact Or.inl (eq_of_beq hk)
    · rw [Bool.not_eq_true] at hk
      rw [hk] at h
      simp only [List.map_cons, List.mem_cons]
      exact Or.inr (ih h)

theorem RACE_PTS_lookup_none {p : Int} (hp : p ≤ 0 ∨ 42 ≤ p) :
    RACE_PTS.lookup p = none := by
  cases h : RACE_PTS.lookup p with
  | none => rfl
  | some v =>
    have hm := lookup_some_mem h
    simp only [RACE_PTS, List.map_cons, List.map_nil, List.mem_cons,
      List.not_mem_nil, or_false] at hm
    omega

theorem QUAL_PTS_lookup_none {p : Int} (hp : p ≤ 0 ∨ 16 ≤ p) :
    QUAL_PTS.lookup p = none := by
  cases h : QUAL_PTS.lookup p with
  | none => rfl
  | some v =>
    have hm := lookup_some_mem h
    simp only [QUAL_PTS, List.map_cons, List.map_nil, List.mem_cons,
      List.not_mem_nil, or_false] at hm
    omega

/-- C1: for every race result processed by the scoring engine, the
per-driver points follow the fixed scales with out-of-range positions
contributing zero: race points equal the race-scale value when
`finish_pos ∈ [1,41]` (in particular `41 ↦ 5`), and `0` when `finish_pos`
is `≥ 42`, `≤ 0` or absent; qualifying points equal the qualifying-scale
value when `start_pos ∈ [1,15]` (in particular `1 ↦ 75`) and `0`
otherwise; the qualifying-leader bonus of 25 is awarded iff
`start_pos = 1`; and the stored total is the sum of the four components. -/
theorem c1_scoring_scales (L : List Int) (r : ResultRow) :
    (∀ p : Int, r.finish_pos = some p → 1 ≤ p → p ≤ 41 →
        RACE_PTS.lookup p ≠ none ∧
          (scoreRow L r).race_pts = (RACE_PTS.lookup p).getD 0) ∧
    ((r.finish_pos = none ∨ ∃ p, r.finish_pos = some p ∧ (p ≤ 0 ∨ 42 ≤ p)) →
        (scoreRow L r).race_pts = 0) ∧
    (r.finish_pos = some 41 → (scoreRow L r).race_pts = 5) ∧
    (∀ p : Int, r.start_pos = some p → 1 ≤ p → p ≤ 15 →
        QUAL_PTS.lookup p ≠ none ∧
          (scoreRow L r).qualifying_pts = (QUAL_PTS.lookup p).getD 0) ∧
    ((r.start_pos = none ∨ ∃ p, r.start_pos = some p ∧ (p ≤ 0 ∨ 16 ≤ p)) →
        (scoreRow L r).qualifying_pts = 0) ∧
    (r.start_pos = some 1 → (scoreRow L r).qualifying_pts = 75) ∧
    ((scoreRow L r).qual_leader_bonus = 25 ↔ r.start_pos = some 1) ∧
    (r.start_pos ≠ some 1 → (scoreRow L r).qual_leader_bonus = 0) ∧
    (scoreRow L r).total_pts =
      (scoreRow L r).race_pts + (scoreRow L r).qualifying_pts +
        (scoreRow L r).qual_leader_bonus + (scoreRow L r).race_leader_bonus := by
  refine ⟨?_, ?_, ?_, ?_, ?_, ?_, ?_, ?_, rfl⟩
  · intro p hp h1 h41
    rw [scoreRow_race_pts, hp]
    interval_cases p <;> exact ⟨by decide, by decide⟩
  · intro h
    rw [scoreRow_race_pts]
    rcases h with h | ⟨p, hp, hout⟩
    · rw [h]; rfl
    · rw [hp]
      by_cases hz : p = 0
      · simp [racePoints, hz]
      · simp [racePoints, hz, dictGet, RACE_PTS_lookup_none hout]
  · intro h
    rw [scoreRow_race_pts, h]; decide
  · intro p hp h1 h15
    rw [scoreRow_qual_pts, hp]
    interval_cases p <;> exact ⟨by decide, by decide⟩
  · intro h
    rw [scoreRow_qual_pts]
    rcases h with h | ⟨p, hp, hout⟩
    · rw [h]; rfl
    · rw [hp]
      by_cases hz : p = 0
      · simp [qualPoints, hz]
      · simp [qualPoints, hz, dictGet, QUAL_PTS_lookup_none hout]
  · intro h
    rw [scoreRow_qual_pts, h]; decide
  · rw [scoreRow_ql_bonus]
    constructor
    · intro h
      by_contra hne
      rw [if_neg hne] at h
      exact absurd h (by decide)
    · intro h; rw [if_pos h]; rfl
  · intro h
    rw [scoreRow_ql_bonus, if_neg h]

theorem c1_scoring_scales_witness :
    ((⟨"r1", 7, some 41, some 1, none⟩ : ResultRow).finish_pos = some 41 ∧
      (1 : Int) ≤ 41 ∧ (41 : Int) ≤ 41 ∧
      (⟨"r1", 7, some 41, some 1, none⟩ : ResultRow).start_pos = some 1) ∧
    (RACE_PTS.lookup 41 ≠ none ∧
      (scoreRow [] ⟨"r1", 7, some 41, some 1, none⟩).race_pts =
        (RACE_PTS.lookup 41).getD 0) ∧
    (scoreRow [] ⟨"r1", 7, some 41, some 1, none⟩).race_pts = 5 ∧
    (scoreRow [] ⟨"r1", 7, some 41, some 1, none⟩).qualifying_pts = 75 := by
  refine ⟨⟨rfl, by decide, by decide, rfl⟩, ?_, ?_, ?_⟩
  · exact (c1_scoring_scales [] ⟨"r1", 7, some 41, some 1, none⟩).1 41 rfl
      (by decide) (by decide)
  · exact (c1_scoring_scales [] ⟨"r1", 7, some 41, some 1, none⟩).2.2.1 rfl
  · exact (c1_scoring_scales [] ⟨"r1", 7, some 41, some 1, none⟩).2.2.2.2.2.1 rfl

/-! ### Theorems: race-leader bonus (C2) -/

theorem le_foldl_max (l : List Int) (a : Int) : a ≤ l.foldl max a := by
  induction l generalizing a with
  | nil => exact le_refl a
  | cons x xs ih => exact le_trans (le_max_left a x) (ih _)

theorem mem_le_foldl_max {l : List Int} {x : Int} (a : Int) (h : x ∈ l) :
    x ≤ l.foldl max a := by
  induction l generalizing a with
  | nil => cases h
  | cons y ys ih =>
    rcases List.mem_cons.mp h with hy | hys
    · subst hy
      exact le_trans (le_max_right a x) (le_foldl_max ys _)
    · exact ih (max a y) hys

theorem foldl_max_all_zero {l : List Int} (h : ∀ x ∈ l, x = 0) :
    l.foldl max 0 = 0 := by
  induction l with
  | nil => rfl
  | cons x xs ih =>
    rw [List.foldl_cons, h x (List.mem_cons_self _ _), max_self]
    exact ih (fun y hy => h y (List.mem_cons_of_mem _ hy))

theorem maxLapsLed_eq_foldl (r0 : ResultRow) (rest : List ResultRow) :
    maxLapsLed (r0 :: rest) =
      (rest.map (fun x => orZero x.laps_led)).foldl max (orZero r0.laps_led) := by
  rw [maxLapsLed, List.foldl_map]

theorem maxLapsLed_ge {results : List ResultRow} {r : ResultRow}
    (h : r ∈ results) : orZero r.laps_led ≤ maxLapsLed results := by
  match results with
  | [] => cases h
  | r0 :: rest =>
    rw [maxLapsLed_eq_foldl]
    rcases List.mem_cons.mp h with h0 | hrest
    · subst h0; exact le_foldl_max _ _
    · exact mem_le_foldl_max _ (List.mem_map_of_mem _ hrest)

theorem maxLapsLed_all_zero {results : List ResultRow}
    (h : ∀ r ∈ results, orZero r.laps_led = 0) : maxLapsLed results = 0 := by
  match results with
  | [] => rfl
  | r0 :: rest =>
    rw [maxLapsLed_eq_foldl, h r0 (List.mem_cons_self _ _)]
    apply foldl_max_all_zero
    intro x hx
    rcases List.mem_map.mp hx with ⟨r, hr, hrx⟩
    rw [← hrx]
    exact h r (List.mem_cons_of_mem _ hr)

theorem mem_leaderIds {results : List ResultRow} {d : Int} :
    d ∈ leaderIds results ↔
      ∃ r ∈ results, r.driver_id = d ∧
        orZero r.laps_led = maxLapsLed results ∧ 0 < maxLapsLed results := by
  simp only [leaderIds, List.mem_map, List.mem_filter, Bool.and_eq_true,
    beq_iff_eq, decide_eq_true_eq]
  constructor
  · rintro ⟨r, ⟨hr, hmax, hpos⟩, hd⟩
    exact ⟨r, hr, hd, hmax, hpos⟩
  · rintro ⟨r, hr, hd, hmax, hpos⟩
    exact ⟨r, ⟨hr, hmax, hpos⟩, hd⟩

/-- C2: a driver in an event receives the race-leader bonus of 100 iff
their `laps_led` (absent treated as 0) equals the maximum `laps_led` over
the event's results and that maximum is positive; ties all receive the
bonus (the iff is stated for every row), and when every `laps_led` is zero
or absent nobody receives it. -/
theorem c2_race_leader_bonus (results : List ResultRow) (row : ResultRow)
    (hmem : row ∈ results)
    (hnd : (results.map (fun r => r.driver_id)).Nodup) :
    ((scoreRow (leaderIds results) row).race_leader_bonus = 100 ↔
      (orZero row.laps_led = maxLapsLed results ∧ 0 < maxLapsLed results)) ∧
    ((∀ r ∈ results, orZero r.laps_led = 0) →
      (scoreRow (leaderIds results) row).race_leader_bonus = 0) := by
  constructor
  · rw [scoreRow_rl_bonus]
    constructor
    · intro h
      by_cases hin : row.driver_id ∈ leaderIds results
      · rcases mem_leaderIds.mp hin with ⟨r, hr, hd, hmax, hpos⟩
        have : r = row := List.inj_on_of_nodup_map hnd hr hmem hd
        subst this
        exact ⟨hmax, hpos⟩
      · rw [if_neg hin] at h
        exact absurd h (by decide)
    · rintro ⟨hmax, hpos⟩
      have hin : row.driver_id ∈ leaderIds results :=
        mem_leaderIds.mpr ⟨row, hmem, rfl, hmax, hpos⟩
      rw [if_pos hin]; rfl
  · intro hz
    rw [scoreRow_rl_bonus]
    have hmax0 := maxLapsLed_all_zero hz
    have : ¬ row.driver_id ∈ leaderIds results := by
      intro hin
      rcases mem_leaderIds.mp hin with ⟨r, hr, hd, hmax, hpos⟩
      rw [hmax0] at hpos
      exact absurd hpos (by decide)
    rw [if_neg this]

theorem c2_race_leader_bonus_witness :
    ((⟨"e", 1, none, none, some 50⟩ : ResultRow) ∈
        ([⟨"e", 1, none, none, some 50⟩, ⟨"e", 2, none, none, some 50⟩,
          ⟨"e", 3, none, none, some 10⟩] : List ResultRow) ∧
      (([⟨"e", 1, none, none, some 50⟩, ⟨"e", 2, none, none, some 50⟩,
          ⟨"e", 3, none, none, some 10⟩] : List ResultRow).map
          (fun r => r.driver_id)).Nodup) ∧
    (scoreRow
        (leaderIds [⟨"e", 1, none, none, some 50⟩, ⟨"e", 2, none, none, some 50⟩,
          ⟨"e", 3, none, none, some 10⟩])
        ⟨"e", 1, none, none, some 50⟩).race_leader_bonus = 100 := by
  refine ⟨⟨by decide, by decide⟩, ?_⟩
  exact ((c2_race_leader_bonus
      [⟨"e", 1, none, none, some 50⟩, ⟨"e", 2, none, none, some 50⟩,
        ⟨"e", 3, none, none, some 10⟩]
      ⟨"e", 1, none, none, some 50⟩ (by decide) (by decide)).1).mpr
    (by decide)

end Nascar

namespace Nascar

/-! ### Theorems: scoring-run idempotence (C3) -/

theorem scoreRow_race_id (L : List Int) (r : ResultRow) :
    (scoreRow L r).race_id = r.race_id := rfl

theorem mem_resultsFor {rs : List ResultRow} {rid : String} {r : ResultRow} :
    r ∈ resultsFor rs rid ↔ r ∈ rs ∧ r.race_id = rid := by
  simp [resultsFor, List.mem_filter]

theorem mem_unscoredRaces {s : Store} {rid : String} :
    rid ∈ unscoredRaces s ↔
      rid ∈ s.races ∧ hasScores s.fantasy_scores rid = false := by
  simp [unscoredRaces, List.mem_filter]

theorem store_ext {t u : Store} (h1 : t.races = u.races)
    (h2 : t.race_results = u.race_results)
    (h3 : t.fantasy_scores = u.fantasy_scores) : t = u := by
  cases t; cases u
  simp only at h1 h2 h3
  rw [h1, h2, h3]

theorem insertScoreIfAbsent_append (fs : List ScoreRow) (row : ScoreRow) :
    ∃ ex, insertScoreIfAbsent fs row = fs ++ ex ∧ ∀ x ∈ ex, x = row := by
  unfold insertScoreIfAbsent
  by_cases h : (fs.any fun x =>
      x.race_id == row.race_id && x.driver_id == row.driver_id) = true
  · exact ⟨[], by rw [if_pos h, List.append_nil], by simp⟩
  · exact ⟨[row], by rw [if_neg h], by simp⟩

theorem scoreRace_fold_append (L : List Int) (rs : List ResultRow) :
    ∀ fs : List ScoreRow,
      ∃ ex,
        rs.foldl (fun acc r => insertScoreIfAbsent acc (scoreRow L r)) fs =
          fs ++ ex ∧ ∀ x ∈ ex, ∃ r ∈ rs, x = scoreRow L r := by
  induction rs with
  | nil => intro fs; exact ⟨[], by simp, by simp⟩
  | cons r rest ih =>
    intro fs
    rw [List.foldl_cons]
    obtain ⟨e1, he1, he1mem⟩ := insertScoreIfAbsent_append fs (scoreRow L r)
    obtain ⟨e2, he2, he2mem⟩ := ih (fs ++ e1)
    refine ⟨e1 ++ e2, ?_, ?_⟩
    · rw [he1, he2, List.append_assoc]
    · intro x hx
      rcases List.mem_append.mp hx with h1 | h2
      · exact ⟨r, List.mem_cons_self _ _, he1mem x h1⟩
      · obtain ⟨r', hr', hx'⟩ := he2mem x h2
        exact ⟨r', List.mem_cons_of_mem _ hr', hx'⟩

theorem scoreRace_append (results : List ResultRow) (fs : List ScoreRow) :
    ∃ ex, scoreRace results fs = fs ++ ex ∧
      ∀ x ∈ ex, ∃ r ∈ results, x = scoreRow (leaderIds results) r := by
  unfold scoreRace
  by_cases h : results.isEmpty = true
  · exact ⟨[], by rw [if_pos h, List.append_nil], by simp⟩
  · rw [if_neg h]
    exact scoreRace_fold_append (leaderIds results) results fs

theorem scoreRace_nil (fs : List ScoreRow) : scoreRace [] fs = fs := rfl

theorem hasScores_append (fs ex : List ScoreRow) (rid : String) :
    hasScores (fs ++ ex) rid = (hasScores fs rid || hasScores ex rid) := by
  simp [hasScores, List.any_append]

theorem hasScores_mono {fs : List ScoreRow} {rid : String} (ex : List ScoreRow)
    (h : hasScores fs rid = true) : hasScores (fs ++ ex) rid = true := by
  rw [hasScores_append, h, Bool.true_or]

theorem scoreRace_preserves_hasScores (results : List ResultRow)
    {fs : List ScoreRow} {rid : String} (h : hasScores fs rid = true) :
    hasScores (scoreRace results fs) rid = true := by
  obtain ⟨ex, he, _⟩ := scoreRace_append results fs
  rw [he]
  exact hasScores_mono ex h

theorem insert_own_race_hasScores (fs : List ScoreRow) (row : ScoreRow) :
    hasScores (insertScoreIfAbsent fs row) row.race_id = true := by
  unfold insertScoreIfAbsent hasScores
  by_cases h : (fs.any fun x =>
      x.race_id == row.race_id && x.driver_id == row.driver_id) = true
  · rw [if_pos h]
    rcases List.any_eq_true.mp h with ⟨x, hx, hcond⟩
    rw [Bool.and_eq_true] at hcond
    exact List.any_eq_true.mpr ⟨x, hx, hcond.1⟩
  · rw [if_neg h]
    refine List.any_eq_true.mpr ⟨row, ?_, by simp⟩
    exact List.mem_append.mpr (Or.inr (List.mem_singleton.mpr rfl))

theorem scoreRace_sets_hasScores {results : List ResultRow} {rid : String}
    (hne : results ≠ []) (hall : ∀ r ∈ results, r.race_id = rid)
    (fs : List ScoreRow) : hasScores (scoreRace results fs) rid = true := by
  match results with
  | [] => exact absurd rfl hne
  | r0 :: rest =>
    unfold scoreRace
    rw [if_neg (by simp), List.foldl_cons]
    have h0 :
        hasScores (insertScoreIfAbsent fs (scoreRow (leaderIds (r0 :: rest)) r0))
          rid = true := by
      have hr0 : (scoreRow (leaderIds (r0 :: rest)) r0).race_id = rid := by
        rw [scoreRow_race_id]
        exact hall r0 (List.mem_cons_self _ _)
      rw [← hr0]
      exact insert_own_race_hasScores fs _
    obtain ⟨ex, he, _⟩ :=
      scoreRace_fold_append (leaderIds (r0 :: rest)) rest
        (insertScoreIfAbsent fs (scoreRow (leaderIds (r0 :: rest)) r0))
    rw [he]
    exact hasScores_mono ex h0

theorem run_append (s : Store) :
    ∃ ex, (calculate_fantasy_scores s).fantasy_scores = s.fantasy_scores ++ ex ∧
      ∀ x ∈ ex, ∃ rid ∈ unscoredRaces s, ∃ r ∈ resultsFor s.race_results rid,
        x = scoreRow (leaderIds (resultsFor s.race_results rid)) r := by
  have main : ∀ (rids : List String) (fs : List ScoreRow),
      ∃ ex,
        rids.foldl (fun fs rid => scoreRace (resultsFor s.race_results rid) fs)
          fs = fs ++ ex ∧
        ∀ x ∈ ex, ∃ rid ∈ rids, ∃ r ∈ resultsFor s.race_results rid,
          x = scoreRow (leaderIds (resultsFor s.race_results rid)) r := by
    intro rids
    induction rids with
    | nil => intro fs; exact ⟨[], by simp, by simp⟩
    | cons a as ih =>
      intro fs
      rw [List.foldl_cons]
      obtain ⟨e1, he1, he1mem⟩ := scoreRace_append (resultsFor s.race_results a) fs
      obtain ⟨e2, he2, he2mem⟩ := ih (fs ++ e1)
      refine ⟨e1 ++ e2, by rw [he1, he2, List.append_assoc], ?_⟩
      intro x hx
      rcases List.mem_append.mp hx with h1 | h2
      · obtain ⟨r, hr, hx'⟩ := he1mem x h1
        exact ⟨a, List.mem_cons_self _ _, r, hr, hx'⟩
      · obtain ⟨rid, hrid, r, hr, hx'⟩ := he2mem x h2
        exact ⟨rid, List.mem_cons_of_mem _ hrid, r, hr, hx'⟩
  exact main (unscoredRaces s) s.fantasy_scores

theorem fold_preserves_hasScores (rs : List ResultRow) (rids : List String)
    {rid : String} :
    ∀ {fs : List ScoreRow}, hasScores fs rid = true →
      hasScores
        (rids.foldl (fun fs r => scoreRace (resultsFor rs r) fs) fs) rid = true := by
  induction rids with
  | nil => intro fs h; exact h
  | cons a as ih =>
    intro fs h
    rw [List.foldl_cons]
    exact ih (scoreRace_preserves_hasScores _ h)

theorem fold_sets_hasScores (rs : List ResultRow) {rids : List String}
    {rid : String} (hmem : rid ∈ rids) (hne : resultsFor rs rid ≠ [])
    (fs : List ScoreRow) :
    hasScores (rids.foldl (fun fs r => scoreRace (resultsFor rs r) fs) fs)
      rid = true := by
  induction rids generalizing fs with
  | nil => cases hmem
  | cons a as ih =>
    rw [List.foldl_cons]
    rcases List.mem_cons.mp hmem with h | h
    · subst h
      have h1 : hasScores (scoreRace (resultsFor rs rid) fs) rid = true :=
        scoreRace_sets_hasScores hne
          (fun r hr => (mem_resultsFor.mp hr).2) fs
      exact fold_preserves_hasScores rs as h1
    · exact ih h _

theorem fold_noop (rs : List ResultRow) (rids : List String)
    (h : ∀ rid ∈ rids, resultsFor rs rid = []) (fs : List ScoreRow) :
    rids.foldl (fun fs r => scoreRace (resultsFor rs r) fs) fs = fs := by
  induction rids generalizing fs with
  | nil => rfl
  | cons a as ih =>
    rw [List.foldl_cons, h a (List.mem_cons_self _ _), scoreRace_nil]
    exact ih (fun rid hr => h rid (List.mem_cons_of_mem _ hr)) fs

theorem run_races (s : Store) : (calculate_fantasy_scores s).races = s.races := rfl

theorem run_race_results (s : Store) :
    (calculate_fantasy_scores s).race_results = s.race_results := rfl

/-- C3: the scoring run is idempotent and never rewrites existing rows:
re-running `calculate_fantasy_scores` on its own output is a no-op, and a
single run only appends rows — every already-present fantasy-score row is
left unchanged, and every appended row belongs to an event that had zero
fantasy-score rows before the run. -/
theorem c3_scoring_idempotent (s : Store) :
    calculate_fantasy_scores (calculate_fantasy_scores s) =
        calculate_fantasy_scores s ∧
    ∃ newRows : List ScoreRow,
      (calculate_fantasy_scores s).fantasy_scores =
          s.fantasy_scores ++ newRows ∧
      ∀ row ∈ newRows, hasScores s.fantasy_scores row.race_id = false := by
  constructor
  · have key : ∀ rid ∈ unscoredRaces (calculate_fantasy_scores s),
        resultsFor s.race_results rid = [] := by
      intro rid hmem
      obtain ⟨hr, hsc⟩ := mem_unscoredRaces.mp hmem
      by_contra hne
      by_cases hs : hasScores s.fantasy_scores rid = true
      · obtain ⟨ex, hex, _⟩ := run_append s
        have : hasScores (calculate_fantasy_scores s).fantasy_scores rid = true := by
          rw [hex]
          exact hasScores_mono ex hs
        rw [this] at hsc
        exact absurd hsc (by decide)
      · have hs' : hasScores s.fantasy_scores rid = false :=
          Bool.eq_false_iff.mpr hs
        have hrid : rid ∈ unscoredRaces s :=
          mem_unscoredRaces.mpr ⟨by exact hr, hs'⟩
        have htrue :
            hasScores (calculate_fantasy_scores s).fantasy_scores rid = true :=
          fold_sets_hasScores s.race_results hrid hne s.fantasy_scores
        rw [htrue] at hsc
        exact absurd hsc (by decide)
    refine store_ext rfl rfl ?_
    exact fold_noop s.race_results _ key _
  · obtain ⟨ex, hex, hmem⟩ := run_append s
    refine ⟨ex, hex, ?_⟩
    intro row hrow
    obtain ⟨rid, hrid, r, hr, hrow_eq⟩ := hmem row hrow
    have h1 : row.race_id = rid := by
      rw [hrow_eq, scoreRow_race_id]
      exact (mem_resultsFor.mp hr).2
    rw [h1]
    exact (mem_unscoredRaces.mp hrid).2

end Nascar

namespace Nascar

/-! ### Theorems: lineup optimizer (C4, C5) -/

theorem mem_combinations {k : Nat} {l c : List DriverRow}
    (h : c ∈ combinations k l) : c.Sublist l ∧ c.length = k := by
  induction l generalizing k c with
  | nil =>
    match k with
    | 0 =>
      rw [combinations, List.mem_singleton] at h
      subst h
      exact ⟨List.nil_sublist _, rfl⟩
    | _ + 1 => rw [combinations] at h; cases h
  | cons x xs ih =>
    match k with
    | 0 =>
      rw [combinations, List.mem_singleton] at h
      subst h
      exact ⟨List.nil_sublist _, rfl⟩
    | n + 1 =>
      rw [combinations] at h
      rcases List.mem_append.mp h with h1 | h2
      · rcases List.mem_map.mp h1 with ⟨c', hc', rfl⟩
        obtain ⟨hs, hl⟩ := ih hc'
        exact ⟨List.Sublist.cons₂ x hs, by simp [hl]⟩
      · obtain ⟨hs, hl⟩ := ih h2
        exact ⟨hs.trans (List.sublist_cons_self x xs), hl⟩

theorem mem_feasibleLineups {pool : List DriverRow} {t : LineupTuple} :
    t ∈ feasibleLineups pool ↔
      ∃ c ∈ combinations 4 pool,
        (c.map (fun r => r.2.1)).sum ≤ 100 ∧
        t = ((c.map (fun r => r.2.2)).sum, (c.map (fun r => r.2.1)).sum, c) := by
  unfold feasibleLineups
  rw [List.mem_filterMap]
  constructor
  · rintro ⟨c, hc, hf⟩
    by_cases hbig : (c.map (fun r => r.2.1)).sum > 100
    · rw [if_pos hbig] at hf; cases hf
    · rw [if_neg hbig] at hf
      exact ⟨c, hc, by omega, (Option.some_injective _ hf).symm⟩
  · rintro ⟨c, hc, hle, rfl⟩
    refine ⟨c, hc, ?_⟩
    rw [if_neg (by omega)]

theorem pyDescGe_pts {a b : LineupTuple} (h : pyDescGe a b) : b.1 ≤ a.1 := by
  unfold pyDescGe tupKey at h
  rcases (Prod.Lex.le_iff _ _).mp h with h1 | ⟨h1, _⟩
  · exact le_of_lt h1
  · exact le_of_eq h1

theorem pyDescGe_salary {a b : LineupTuple} (h : pyDescGe a b) :
    b.1 < a.1 ∨ (b.1 = a.1 ∧ b.2.1 ≤ a.2.1) := by
  unfold pyDescGe tupKey at h
  rcases (Prod.Lex.le_iff _ _).mp h with h1 | ⟨h1, h2⟩
  · exact Or.inl h1
  · refine Or.inr ⟨h1, ?_⟩
    rcases (Prod.Lex.le_iff _ _).mp h2 with h3 | ⟨h3, _⟩
    · exact le_of_lt h3
    · exact le_of_eq h3

/-- C4: the optimizer returns at most 5 lineups; every returned lineup is a
4-driver sub-selection of the pool (distinct drivers when the pool has no
duplicates) whose recorded salary is its summed salary and is within the
$100 budget and whose recorded points are its summed points; the output is
the 5-element prefix of a points-descending ordering of exactly the
feasible combinations; and when no 4-driver combination fits the budget
the result is the empty list. -/
theorem c4_optimizer (pool : List DriverRow) (hnd : pool.Nodup) :
    (fantasy_optimizer pool).length ≤ 5 ∧
    (∀ t ∈ fantasy_optimizer pool,
        t.2.2.length = 4 ∧ t.2.2.Sublist pool ∧ t.2.2.Nodup ∧
        t.2.1 = (t.2.2.map (fun r => r.2.1)).sum ∧ t.2.1 ≤ 100 ∧
        t.1 = (t.2.2.map (fun r => r.2.2)).sum) ∧
    (∃ sorted : List LineupTuple,
        sorted.Perm (feasibleLineups pool) ∧
        sorted.Pairwise (fun a b => b.1 ≤ a.1) ∧
        fantasy_optimizer pool = sorted.take 5) ∧
    ((∀ c ∈ combinations 4 pool, (c.map (fun r => r.2.1)).sum > 100) →
        fantasy_optimizer pool = []) := by
  refine ⟨?_, ?_, ?_, ?_⟩
  · exact List.length_take_le 5 _
  · intro t ht
    have hmem : t ∈ List.insertionSort pyDescGe (feasibleLineups pool) :=
      (List.take_sublist 5 _).subset ht
    have hfeas : t ∈ feasibleLineups pool :=
      (List.perm_insertionSort pyDescGe _).subset hmem
    obtain ⟨c, hc, hle, rfl⟩ := mem_feasibleLineups.mp hfeas
    obtain ⟨hsub, hlen⟩ := mem_combinations hc
    exact ⟨hlen, hsub, hnd.sublist hsub, rfl, hle, rfl⟩
  · refine ⟨List.insertionSort pyDescGe (feasibleLineups pool),
      List.perm_insertionSort pyDescGe _, ?_, rfl⟩
    exact (List.sorted_insertionSort pyDescGe _).imp (fun h => pyDescGe_pts h)
  · intro hall
    have hempty : feasibleLineups pool = [] := by
      rw [List.eq_nil_iff_forall_not_mem]
      intro t ht
      obtain ⟨c, hc, hle, _⟩ := mem_feasibleLineups.mp ht
      exact absurd (hall c hc) (by omega)
    rw [fantasy_optimizer, hempty]
    rfl

theorem c4_optimizer_witness :
    ([("A", 40, 20), ("B", 30, 18), ("C", 20, 15), ("D", 15, 12),
        ("E", 10, 10)] : List DriverRow).Nodup ∧
    (∀ t ∈ fantasy_optimizer
        [("A", 40, 20), ("B", 30, 18), ("C", 20, 15), ("D", 15, 12),
          ("E", 10, 10)],
        t.2.2.length = 4 ∧
        t.2.2.Sublist
          [("A", 40, 20), ("B", 30, 18), ("C", 20, 15), ("D", 15, 12),
            ("E", 10, 10)] ∧ t.2.2.Nodup ∧
        t.2.1 = (t.2.2.map (fun r => r.2.1)).sum ∧ t.2.1 ≤ 100 ∧
        t.1 = (t.2.2.map (fun r => r.2.2)).sum) := by
  refine ⟨by decide, ?_⟩
  exact (c4_optimizer
    [("A", 40, 20), ("B", 30, 18), ("C", 20, 15), ("D", 15, 12),
      ("E", 10, 10)] (by decide)).2.1

/-- C5 counterexample: with the points-descending pool
`A($10,8pts) B($10,6) C($10,4) D($20,2) E($30,2)`, enumeration generates
the lineup ABCD (20 pts, $50) strictly before ABCE (20 pts, $60) — both
feasible with equal summed points — yet the optimizer returns ABCE first.
So equal-points lineups are not ordered by enumeration order; the claim is
false. -/
theorem c5_tiebreak_counterexample :
    (feasibleLineups
        [("A", 10, 8), ("B", 10, 6), ("C", 10, 4), ("D", 20, 2),
          ("E", 30, 2)]).map (fun t => (t.1, t.2.1)) =
      [(20, 50), (20, 60), (18, 70), (16, 70), (14, 70)] ∧
    (fantasy_optimizer
        [("A", 10, 8), ("B", 10, 6), ("C", 10, 4), ("D", 20, 2),
          ("E", 30, 2)]).map (fun t => (t.1, t.2.1)) =
      [(20, 60), (20, 50), (18, 70), (16, 70), (14, 70)] := by
  constructor
  · decide
  · decide

/-- C5 (amended): the ranking is by descending summed points, and two
feasible lineups with equal summed points are ordered by descending total
salary (further ties fall through to Python's lexicographic comparison of
the row tuples themselves), not by enumeration order. -/
theorem c5_tiebreak_amended (pool : List DriverRow) :
    (fantasy_optimizer pool).Pairwise
      (fun a b => b.1 < a.1 ∨ (b.1 = a.1 ∧ b.2.1 ≤ a.2.1)) := by
  have hs : (List.insertionSort pyDescGe (feasibleLineups pool)).Pairwise
      (fun a b => b.1 < a.1 ∨ (b.1 = a.1 ∧ b.2.1 ≤ a.2.1)) :=
    (List.sorted_insertionSort pyDescGe _).imp (fun h => pyDescGe_salary h)
  exact hs.sublist (List.take_sublist 5 _)

end Nascar

namespace Nascar

/-! ### Theorems: identity-resolver threshold (C6) -/

theorem match_fold_inv (ratio : String → String → ℚ) (scraped : String)
    (l : List (Int × String)) :
    ∀ b0 : Option Int × Option String × ℚ,
      b0.2.2 ≤ (l.foldl (matchStep ratio scraped) b0).2.2 ∧
      (∀ d ∈ l, similarity ratio scraped d.2 ≤
          (l.foldl (matchStep ratio scraped) b0).2.2) ∧
      (l.foldl (matchStep ratio scraped) b0 = b0 ∨
        ∃ d ∈ l, (l.foldl (matchStep ratio scraped) b0).1 = some d.1 ∧
          (l.foldl (matchStep ratio scraped) b0).2.1 = some d.2 ∧
          similarity ratio scraped d.2 =
            (l.foldl (matchStep ratio scraped) b0).2.2) := by
  induction l with
  | nil => intro b0; exact ⟨le_refl _, by simp, Or.inl rfl⟩
  | cons d l ih =>
    intro b0
    rw [List.foldl_cons]
    obtain ⟨ih1, ih2, ih3⟩ := ih (matchStep ratio scraped b0 d)
    by_cases h : b0.2.2 < similarity ratio scraped d.2
    · have hstep : matchStep ratio scraped b0 d =
          (some d.1, some d.2, similarity ratio scraped d.2) := by
        rw [matchStep, if_pos h]
      have hs2 : (matchStep ratio scraped b0 d).2.2 =
          similarity ratio scraped d.2 := by rw [hstep]
      refine ⟨?_, ?_, ?_⟩
      · refine le_trans (le_of_lt h) ?_
        rw [← hs2]
        exact ih1
      · intro d' hd'
        rcases List.mem_cons.mp hd' with heq | hd'
        · rw [heq, ← hs2]
          exact ih1
        · exact ih2 d' hd'
      · rcases ih3 with heq | ⟨d', hd', h1, h2, h3⟩
        · refine Or.inr ⟨d, List.mem_cons_self _ _, ?_, ?_, ?_⟩
          · rw [heq, hstep]
          · rw [heq, hstep]
          · rw [heq, hstep]
        · exact Or.inr ⟨d', List.mem_cons_of_mem _ hd', h1, h2, h3⟩
    · have hstep : matchStep ratio scraped b0 d = b0 := by
        rw [matchStep, if_neg h]
      rw [hstep] at ih1 ih2 ih3 ⊢
      refine ⟨ih1, ?_, ?_⟩
      · intro d' hd'
        rcases List.mem_cons.mp hd' with heq | hd'
        · rw [heq]
          exact le_trans (le_of_not_lt h) ih1
        · exact ih2 d' hd'
      · rcases ih3 with heq | ⟨d', hd', h1, h2, h3⟩
        · exact Or.inl heq
        · exact Or.inr ⟨d', List.mem_cons_of_mem _ hd', h1, h2, h3⟩

/-- C6: the identity resolver lowercases both names before scoring (so
matching is case-insensitive), scores the scraped name against every
canonical record, and accepts iff the maximum score reaches the fixed
0.78 threshold (so a best score of 0.77 is unmatched and 0.78 is
matched); any returned record achieves the maximum score, and when the
scraped name occurs verbatim among the canonical names and the matcher is
reflexive (ratio 1.0 on identical strings) a match is always returned. -/
theorem c6_match_driver (ratio : String → String → ℚ) (scraped : String)
    (drivers : List (Int × String)) :
    ((match_driver ratio scraped drivers).isSome ↔
        ∃ d ∈ drivers, (78 : ℚ) / 100 ≤ similarity ratio scraped d.2) ∧
    (∀ res, match_driver ratio scraped drivers = some res →
        (78 : ℚ) / 100 ≤ res.2.2 ∧
        (∃ d ∈ drivers, res.1 = some d.1 ∧ res.2.1 = some d.2 ∧
            similarity ratio scraped d.2 = res.2.2) ∧
        (∀ d ∈ drivers, similarity ratio scraped d.2 ≤ res.2.2)) ∧
    (∀ s2 : String, s2.toLower = scraped.toLower →
        match_driver ratio s2 drivers = match_driver ratio scraped drivers) ∧
    ((∀ s, ratio s s = 1) → ∀ d ∈ drivers, d.2 = scraped →
        (match_driver ratio scraped drivers).isSome) := by
  obtain ⟨inv1, inv2, inv3⟩ := match_fold_inv ratio scraped drivers (none, none, 0)
  have hiff : (match_driver ratio scraped drivers).isSome ↔
      ∃ d ∈ drivers, (78 : ℚ) / 100 ≤ similarity ratio scraped d.2 := by
    unfold match_driver
    by_cases hth : (78 : ℚ) / 100 ≤
        (drivers.foldl (matchStep ratio scraped) (none, none, 0)).2.2
    · rw [if_pos hth]
      simp only [Option.isSome_some, true_iff]
      rcases inv3 with heq | ⟨d, hd, _, _, h3⟩
      · rw [heq] at hth
        exact absurd hth (by norm_num)
      · exact ⟨d, hd, by rw [h3]; exact hth⟩
    · rw [if_neg hth]
      simp only [Option.isSome_none, Bool.false_eq_true, false_iff]
      rintro ⟨d, hd, hge⟩
      exact hth (le_trans hge (inv2 d hd))
  refine ⟨hiff, ?_, ?_, ?_⟩
  · intro res hres
    unfold match_driver at hres
    by_cases hth : (78 : ℚ) / 100 ≤
        (drivers.foldl (matchStep ratio scraped) (none, none, 0)).2.2
    · rw [if_pos hth] at hres
      have hres' : (drivers.foldl (matchStep ratio scraped) (none, none, 0)) = res :=
        Option.some_injective _ hres
      rw [hres'] at hth inv2 inv3
      refine ⟨hth, ?_, inv2⟩
      rcases inv3 with heq | hex
      · rw [heq] at hth
        exact absurd hth (by norm_num)
      · exact hex
    · rw [if_neg hth] at hres
      cases hres
  · intro s2 h2
    have hsim : similarity ratio s2 = similarity ratio scraped := by
      funext x
      rw [similarity, similarity, h2]
    have hstep : matchStep ratio s2 = matchStep ratio scraped := by
      funext b d
      rw [matchStep, matchStep, hsim]
    rw [match_driver, match_driver, hstep]
  · intro hrefl d hd hdname
    rw [hiff]
    refine ⟨d, hd, ?_⟩
    rw [hdname, similarity, hrefl]
    norm_num

theorem c6_match_driver_witness :
    (∀ s : String, (fun a b => if a = b then (1 : ℚ) else 0) s s = 1) ∧
    ((7, "Kyle Larson") ∈ ([(7, "Kyle Larson")] : List (Int × String)) ∧
      ("Kyle Larson" : String) = "Kyle Larson") ∧
    (match_driver (fun a b => if a = b then (1 : ℚ) else 0) "Kyle Larson"
        [(7, "Kyle Larson")]).isSome := by
  refine ⟨fun s => by simp, ⟨List.mem_singleton.mpr rfl, rfl⟩, ?_⟩
  exact (c6_match_driver (fun a b => if a = b then (1 : ℚ) else 0)
      "Kyle Larson" [(7, "Kyle Larson")]).2.2.2
    (fun s => by simp) (7, "Kyle Larson") (List.mem_singleton.mpr rfl) rfl

end Nascar

namespace Nascar

/-! ### Theorems: salary scraper (C8) -/

theorem mem_scrapeFilter (raw : List (List Char × Nat)) :
    ∀ (seen : List (List Char)) (n : List Char) (p : Nat),
      (n, p) ∈ scrapeFilter raw seen ↔
        ¬ n ∈ seen ∧ 1 ≤ p ∧ p ≤ 60 ∧
        ∃ pre post, raw = pre ++ (n, p) :: post ∧
          ∀ q ∈ pre, ¬(q.1 = n ∧ 1 ≤ q.2 ∧ q.2 ≤ 60) := by
  induction raw with
  | nil =>
    intro seen n p
    simp only [scrapeFilter, List.not_mem_nil, false_iff]
    rintro ⟨-, -, -, pre, post, habs, -⟩
    exact List.append_ne_nil_of_right_ne_nil pre (by simp) habs.symm
  | cons hd rest ih =>
    intro seen n p
    obtain ⟨m, q⟩ := hd
    rw [scrapeFilter]
    by_cases hc : 1 ≤ q ∧ q ≤ 60 ∧ ¬ m ∈ seen
    · rw [if_pos hc]
      constructor
      · intro hmem
        rcases List.mem_cons.mp hmem with heq | hrec
        · obtain ⟨hn, hp⟩ := Prod.ext_iff.mp heq
          simp only at hn hp
          subst hn; subst hp
          exact ⟨hc.2.2, hc.1, hc.2.1, [], rest, rfl, by simp⟩
        · obtain ⟨hns, h1, h60, pre, post, hdec, hpre⟩ := (ih (m :: seen) n p).mp hrec
          have hnm : n ≠ m := fun h => hns (h ▸ List.mem_cons_self m seen)
          refine ⟨fun h => hns (List.mem_cons_of_mem _ h), h1, h60,
            (m, q) :: pre, post, by simp [hdec], ?_⟩
          intro x hx
          rcases List.mem_cons.mp hx with hxe | hxp
          · rw [hxe]
            rintro ⟨hh, -⟩
            exact hnm hh.symm
          · exact hpre x hxp
      · rintro ⟨hns, h1, h60, pre, post, hdec, hpre⟩
        match pre, hdec with
        | [], hdec =>
          have : (m, q) = (n, p) := by
            have := congrArg (fun l => List.head? l) hdec
            simpa using this
          rw [this]
          exact List.mem_cons_self _ _
        | (m', q') :: pre', hdec =>
          have hmq : (m', q') = (m, q) ∧ rest = pre' ++ (n, p) :: post := by
            have h1' := congrArg (fun l => List.head? l) hdec
            have h2' := congrArg (fun l => List.tail l) hdec
            simp at h1' h2'
            exact ⟨by rw [h1'.1, h1'.2], h2'⟩
          obtain ⟨hmq1, hrest⟩ := hmq
          have hhd := hpre (m', q') (List.mem_cons_self _ _)
          rw [hmq1] at hhd
          have hnm : m ≠ n := by
            intro h
            exact hhd ⟨h, hc.1, hc.2.1⟩
          refine List.mem_cons_of_mem _ ((ih (m :: seen) n p).mpr ?_)
          refine ⟨?_, h1, h60, pre', post, hrest, ?_⟩
          · intro hmem
            rcases List.mem_cons.mp hmem with h | h
            · exact hnm h.symm
            · exact hns h
          · intro x hx
            exact hpre x (List.mem_cons_of_mem _ hx)
    · rw [if_neg hc]
      constructor
      · intro hrec
        obtain ⟨hns, h1, h60, pre, post, hdec, hpre⟩ := (ih seen n p).mp hrec
        refine ⟨hns, h1, h60, (m, q) :: pre, post, by simp [hdec], ?_⟩
        intro x hx
        rcases List.mem_cons.mp hx with hxe | hxp
        · rw [hxe]
          rintro ⟨hh, hq1, hq60⟩
          apply hc
          refine ⟨hq1, hq60, ?_⟩
          have hh' : m = n := hh
          rw [hh']
          exact hns
        · exact hpre x hxp
      · rintro ⟨hns, h1, h60, pre, post, hdec, hpre⟩
        match pre, hdec with
        | [], hdec =>
          have heq : (m, q) = (n, p) := by
            have := congrArg (fun l => List.head? l) hdec
            simpa using this
          exfalso
          apply hc
          obtain ⟨hm, hq⟩ := Prod.ext_iff.mp heq
          simp only at hm hq
          subst hm; subst hq
          exact ⟨h1, h60, hns⟩
        | (m', q') :: pre', hdec =>
          have h1' := congrArg (fun l => List.head? l) hdec
          have h2' := congrArg (fun l => List.tail l) hdec
          simp at h1' h2'
          refine (ih seen n p).mpr ⟨hns, h1, h60, pre', post, h2', ?_⟩
          intro x hx
          exact hpre x (List.mem_cons_of_mem _ hx)

theorem scrapeFilter_nodup (raw : List (List Char × Nat)) :
    ∀ seen : List (List Char),
      ((scrapeFilter raw seen).map Prod.fst).Nodup ∧
      ∀ x ∈ scrapeFilter raw seen, ¬ x.1 ∈ seen := by
  induction raw with
  | nil => intro seen; exact ⟨List.nodup_nil, by simp [scrapeFilter]⟩
  | cons hd rest ih =>
    intro seen
    obtain ⟨m, q⟩ := hd
    rw [scrapeFilter]
    by_cases hc : 1 ≤ q ∧ q ≤ 60 ∧ ¬ m ∈ seen
    · rw [if_pos hc]
      obtain ⟨ihn, ihs⟩ := ih (m :: seen)
      constructor
      · rw [List.map_cons, List.nodup_cons]
        refine ⟨?_, ihn⟩
        intro hmem
        rcases List.mem_map.mp hmem with ⟨x, hx, hx1⟩
        exact ihs x hx (hx1 ▸ List.mem_cons_self m seen)
      · intro x hx
        rcases List.mem_cons.mp hx with heq | hrec
        · rw [heq]
          exact hc.2.2
        · intro hxs
          exact ihs x hrec (List.mem_cons_of_mem _ hxs)
    · rw [if_neg hc]
      exact ih seen

/-- C8 counterexample: on the input text `Kyle van $40` the scraper
returns the pair `("Kyle van", 40)` although `van` is not a capitalized
token, so the output is not contained in the set of pairs whose name is a
run of capitalized word-tokens: the regex only requires the first token to
be capitalized. -/
theorem c8_scrape_counterexample :
    scrape_salaries_text ("Kyle van $40".toList) =
      [(("Kyle van").toList, 40)] ∧
    specCapitalizedTokens (("Kyle van").toList) = false := by
  constructor
  · decide
  · decide

end Nascar

namespace Nascar

/-! ### Theorems: salary scraper, continued (C8 shape and model adequacy) -/

theorem scrapeFilter_subset (raw : List (List Char × Nat)) :
    ∀ seen, ∀ x ∈ scrapeFilter raw seen, x ∈ raw := by
  induction raw with
  | nil => intro seen x hx; simp [scrapeFilter] at hx
  | cons hd rest ih =>
    intro seen x hx
    obtain ⟨m, q⟩ := hd
    rw [scrapeFilter] at hx
    by_cases hc : 1 ≤ q ∧ q ≤ 60 ∧ ¬ m ∈ seen
    · rw [if_pos hc] at hx
      rcases List.mem_cons.mp hx with heq | hrec
      · exact heq ▸ List.mem_cons_self _ _
      · exact List.mem_cons_of_mem _ (ih _ x hrec)
    · rw [if_neg hc] at hx
      exact List.mem_cons_of_mem _ (ih _ x hx)

theorem munchUnitsGo_rest_le (fuel : Nat) :
    ∀ l : List Char, (munchUnitsGo fuel l).2.length ≤ l.length := by
  induction fuel with
  | zero => intro l; exact le_refl _
  | succ fuel ih =>
    intro l
    match l with
    | [] => exact Nat.le_refl _
    | c :: cs =>
      rw [munchUnitsGo]
      by_cases h1 : isSepChar c = true
      · rw [if_pos h1]
        by_cases h2 : (cs.takeWhile Char.isAlpha).isEmpty = true
        · rw [if_pos h2]
        · rw [if_neg h2]
          show (munchUnitsGo fuel (cs.dropWhile Char.isAlpha)).2.length ≤
            (c :: cs).length
          have ha := ih (cs.dropWhile Char.isAlpha)
          have hb : (cs.dropWhile Char.isAlpha).length ≤ cs.length :=
            (List.dropWhile_sublist Char.isAlpha).length_le
          simp only [List.length_cons]
          omega
      · rw [if_neg h1]

theorem munchUnits_rest_le (l : List Char) :
    (munchUnits l).2.length ≤ l.length := munchUnitsGo_rest_le l.length l

theorem munchUnitsGo_chars (fuel : Nat) :
    ∀ l : List Char, ∀ x ∈ (munchUnitsGo fuel l).1,
      x.isAlpha = true ∨ isSepChar x = true := by
  induction fuel with
  | zero => intro l x hx; simp [munchUnitsGo] at hx
  | succ fuel ih =>
    intro l x hx
    match l with
    | [] => simp [munchUnitsGo] at hx
    | c :: cs =>
      rw [munchUnitsGo] at hx
      by_cases h1 : isSepChar c = true
      · rw [if_pos h1] at hx
        by_cases h2 : (cs.takeWhile Char.isAlpha).isEmpty = true
        · rw [if_pos h2] at hx
          simp at hx
        · rw [if_neg h2] at hx
          have hx' : x ∈ c :: (cs.takeWhile Char.isAlpha ++
              (munchUnitsGo fuel (cs.dropWhile Char.isAlpha)).1) := hx
          rcases List.mem_cons.mp hx' with heq | hm
          · exact Or.inr (heq ▸ h1)
          · rcases List.mem_append.mp hm with htw | hmu
            · exact Or.inl (List.mem_takeWhile_imp htw)
            · exact ih _ x hmu
      · rw [if_neg h1] at hx
        simp at hx

theorem munchUnitsGo_fuel_eq (f1 : Nat) :
    ∀ (f2 : Nat) (l : List Char), l.length ≤ f1 → l.length ≤ f2 →
      munchUnitsGo f1 l = munchUnitsGo f2 l := by
  induction f1 with
  | zero =>
    intro f2 l h1 h2
    have : l = [] := List.eq_nil_of_length_eq_zero (Nat.le_zero.mp h1)
    subst this
    match f2 with
    | 0 => rfl
    | _ + 1 => rfl
  | succ f1 ih =>
    intro f2 l h1 h2
    match l with
    | [] =>
      match f2 with
      | 0 => rfl
      | _ + 1 => rfl
    | c :: cs =>
      match f2 with
      | 0 => simp at h2
      | f2 + 1 =>
        rw [munchUnitsGo, munchUnitsGo]
        by_cases hs : isSepChar c = true
        · rw [if_pos hs, if_pos hs]
          by_cases h2' : (cs.takeWhile Char.isAlpha).isEmpty = true
          · rw [if_pos h2', if_pos h2']
          · rw [if_neg h2', if_neg h2']
            have hd : (cs.dropWhile Char.isAlpha).length ≤ cs.length :=
              (List.dropWhile_sublist Char.isAlpha).length_le
            simp only [List.length_cons] at h1 h2
            rw [ih f2 (cs.dropWhile Char.isAlpha) (by omega) (by omega)]
        · rw [if_neg hs, if_neg hs]

theorem pySplitGo_tokens (fuel : Nat) :
    ∀ l : List Char, ∀ t ∈ pySplitGo fuel l,
      t ≠ [] ∧ ∀ x ∈ t, x ∈ l ∧ pyIsSpace x = false := by
  induction fuel with
  | zero => intro l t ht; simp [pySplitGo] at ht
  | succ fuel ih =>
    intro l t ht
    match l with
    | [] => simp [pySplitGo] at ht
    | c :: cs =>
      rw [pySplitGo] at ht
      by_cases hsp : pyIsSpace c = true
      · rw [if_pos hsp] at ht
        obtain ⟨hne, hmem⟩ := ih cs t ht
        exact ⟨hne, fun x hx =>
          ⟨List.mem_cons_of_mem _ (hmem x hx).1, (hmem x hx).2⟩⟩
      · rw [if_neg hsp] at ht
        rcases List.mem_cons.mp ht with heq | hrec
        · subst heq
          refine ⟨by simp, ?_⟩
          intro x hx
          rcases List.mem_cons.mp hx with rfl | htw
          · exact ⟨List.mem_cons_self _ _, Bool.eq_false_iff.mpr hsp⟩
          · refine ⟨List.mem_cons_of_mem _
              ((List.takeWhile_sublist _).subset htw), ?_⟩
            have := List.mem_takeWhile_imp htw
            rw [Bool.not_eq_true'] at this
            exact this
        · obtain ⟨hne, hmem⟩ := ih _ t hrec
          refine ⟨hne, fun x hx => ⟨?_, (hmem x hx).2⟩⟩
          exact List.mem_cons_of_mem _
            ((List.dropWhile_sublist _).subset (hmem x hx).1)

theorem pySplit_tokens (l : List Char) :
    ∀ t ∈ pySplit l, t ≠ [] ∧ ∀ x ∈ t, x ∈ l ∧ pyIsSpace x = false :=
  pySplitGo_tokens l.length l

theorem pySplitGo_fuel_eq (f1 : Nat) :
    ∀ (f2 : Nat) (l : List Char), l.length ≤ f1 → l.length ≤ f2 →
      pySplitGo f1 l = pySplitGo f2 l := by
  induction f1 with
  | zero =>
    intro f2 l h1 h2
    have : l = [] := List.eq_nil_of_length_eq_zero (Nat.le_zero.mp h1)
    subst this
    match f2 with
    | 0 => rfl
    | _ + 1 => rfl
  | succ f1 ih =>
    intro f2 l h1 h2
    match l with
    | [] =>
      match f2 with
      | 0 => rfl
      | _ + 1 => rfl
    | c :: cs =>
      match f2 with
      | 0 => simp at h2
      | f2 + 1 =>
        rw [pySplitGo, pySplitGo]
        simp only [List.length_cons] at h1 h2
        by_cases hsp : pyIsSpace c = true
        · rw [if_pos hsp, if_pos hsp]
          exact ih f2 cs (by omega) (by omega)
        · rw [if_neg hsp, if_neg hsp]
          have hd : (cs.dropWhile (fun x => !pyIsSpace x)).length ≤ cs.length :=
            (List.dropWhile_sublist _).length_le
          rw [ih f2 (cs.dropWhile (fun x => !pyIsSpace x)) (by omega) (by omega)]

theorem pySplit_head {c : Char} {cs : List Char} (h : pyIsSpace c = false) :
    ∃ ts, pySplit (c :: cs) =
      (c :: cs.takeWhile (fun x => !pyIsSpace x)) :: ts := by
  refine ⟨pySplitGo cs.length (cs.dropWhile (fun x => !pyIsSpace x)), ?_⟩
  show pySplitGo (c :: cs).length (c :: cs) = _
  simp only [List.length_cons]
  rw [pySplitGo, if_neg (by rw [h]; exact Bool.false_ne_true)]

theorem joinSpace_chars (ts : List (List Char)) :
    ∀ x ∈ joinSpace ts, x = ' ' ∨ ∃ t ∈ ts, x ∈ t := by
  induction ts with
  | nil => intro x hx; simp [joinSpace] at hx
  | cons t ts ih =>
    intro x hx
    match ts with
    | [] =>
      rw [joinSpace] at hx
      exact Or.inr ⟨t, List.mem_cons_self _ _, hx⟩
    | t2 :: ts2 =>
      have hx2 : x ∈ t ++ ' ' :: joinSpace (t2 :: ts2) := hx
      rcases List.mem_append.mp hx2 with hmt | hrest
      · exact Or.inr ⟨t, List.mem_cons_self _ _, hmt⟩
      · rcases List.mem_cons.mp hrest with heq | hjoin
        · exact Or.inl heq
        · rcases ih x hjoin with hsp | ⟨t', ht', hxt'⟩
          · exact Or.inl hsp
          · exact Or.inr ⟨t', List.mem_cons_of_mem _ ht', hxt'⟩

theorem joinSpace_head (c : Char) (t : List Char) (ts : List (List Char)) :
    ∃ ws, joinSpace ((c :: t) :: ts) = c :: ws := by
  match ts with
  | [] => exact ⟨t, rfl⟩
  | t2 :: ts2 => exact ⟨t ++ ' ' :: joinSpace (t2 :: ts2), rfl⟩

theorem normName_shape {c : Char} {cs : List Char} (hc : pyIsSpace c = false) :
    ∃ ws, normName (c :: cs) = c :: ws ∧
      ∀ x ∈ ws, x = ' ' ∨ (x ∈ c :: cs ∧ pyIsSpace x = false) := by
  obtain ⟨ts, hts⟩ := @pySplit_head c cs hc
  obtain ⟨ws, hws⟩ :=
    joinSpace_head c (cs.takeWhile (fun x => !pyIsSpace x)) ts
  refine ⟨ws, by rw [normName, hts, hws], ?_⟩
  intro x hx
  have hx' : x ∈ joinSpace ((c :: cs.takeWhile (fun x => !pyIsSpace x)) :: ts) := by
    rw [hws]
    exact List.mem_cons_of_mem _ hx
  rcases joinSpace_chars _ x hx' with hsp | ⟨t, ht, hxt⟩
  · exact Or.inl hsp
  · rw [← hts] at ht
    exact Or.inr ((pySplit_tokens _ t ht).2 x hxt)

theorem skipComma_length_le (l : List Char) : (skipComma l).length ≤ l.length := by
  match l with
  | [] => exact le_refl _
  | d :: ds =>
    rw [skipComma]
    by_cases h : (d == ',' || d == '-') = true
    · rw [if_pos h]
      simp
    · rw [if_neg h]

theorem matchSuffix_rest_lt {r2 : List Char} {pr : Nat} {rest : List Char}
    (h : matchSuffix r2 = some (pr, rest)) : rest.length < r2.length := by
  have hchain : (skipSpaces (skipComma (skipSpaces r2))).length ≤ r2.length := by
    have h1 : (skipSpaces (skipComma (skipSpaces r2))).length ≤
        (skipComma (skipSpaces r2)).length :=
      (List.dropWhile_sublist _).length_le
    have h2 := skipComma_length_le (skipSpaces r2)
    have h3 : (skipSpaces r2).length ≤ r2.length :=
      (List.dropWhile_sublist _).length_le
    omega
  rw [matchSuffix] at h
  split at h
  case h_1 r6 heq =>
    split at h
    case isTrue => cases h
    case isFalse =>
      have hrest : rest = r6.dropWhile Char.isDigit := by
        have := (Option.some_injective _ h)
        exact (Prod.ext_iff.mp this).2.symm
      have h4 : (r6.dropWhile Char.isDigit).length ≤ r6.length :=
        (List.dropWhile_sublist _).length_le
      have h5 : r6.length + 1 = (skipSpaces (skipComma (skipSpaces r2))).length := by
        rw [heq]
        rfl
      rw [hrest]
      omega
  case h_2 => cases h

theorem matchAt_some_elim {l nm : List Char} {pr : Nat} {rest : List Char}
    (h : matchAt l = some (nm, pr, rest)) :
    ∃ c cs, l = c :: cs ∧ c.isUpper = true ∧
      nm = c :: (cs.takeWhile Char.isAlpha ++
        (munchUnits (cs.dropWhile Char.isAlpha)).1) ∧
      matchSuffix (munchUnits (cs.dropWhile Char.isAlpha)).2 = some (pr, rest) := by
  match l with
  | [] => cases h
  | c :: cs =>
    rw [matchAt] at h
    by_cases hu : c.isUpper = true
    · rw [if_pos hu] at h
      by_cases hw : (cs.takeWhile Char.isAlpha).isEmpty = true
      · rw [if_pos hw] at h; cases h
      · rw [if_neg hw] at h
        by_cases hm : (munchUnits (cs.dropWhile Char.isAlpha)).1.isEmpty = true
        · rw [if_pos hm] at h; cases h
        · rw [if_neg hm] at h
          split at h
          next price rest' heq =>
            obtain ⟨h1, h23⟩ := Prod.ext_iff.mp (Option.some_injective _ h)
            obtain ⟨h2, h3⟩ := Prod.ext_iff.mp h23
            simp only at h1 h2 h3
            refine ⟨c, cs, rfl, hu, h1.symm, ?_⟩
            rw [heq, h2, h3]
          next => cases h
    · rw [if_neg hu] at h; cases h

theorem matchAt_rest_lt {l nm : List Char} {pr : Nat} {rest : List Char}
    (h : matchAt l = some (nm, pr, rest)) : rest.length < l.length := by
  obtain ⟨c, cs, rfl, -, -, hsuf⟩ := matchAt_some_elim h
  have h1 := matchSuffix_rest_lt hsuf
  have h2 := munchUnits_rest_le (cs.dropWhile Char.isAlpha)
  have h3 : (cs.dropWhile Char.isAlpha).length ≤ cs.length :=
    (List.dropWhile_sublist _).length_le
  simp only [List.length_cons]
  omega

theorem matchAt_shape {l nm : List Char} {pr : Nat} {rest : List Char}
    (h : matchAt l = some (nm, pr, rest)) :
    ∃ c ws, nm = c :: ws ∧ c.isUpper = true ∧
      ∀ x ∈ ws, x.isAlpha = true ∨ isSepChar x = true := by
  obtain ⟨c, cs, -, hu, hnm, -⟩ := matchAt_some_elim h
  refine ⟨c, _, hnm, hu, ?_⟩
  intro x hx
  rcases List.mem_append.mp hx with htw | hmu
  · exact Or.inl (List.mem_takeWhile_imp htw)
  · exact munchUnitsGo_chars _ _ x hmu

theorem findMatchesGo_mem (fuel : Nat) :
    ∀ (l : List Char) (m : List Char × Nat), m ∈ findMatchesGo fuel l →
      ∃ l' rest, matchAt l' = some (m.1, m.2, rest) := by
  induction fuel with
  | zero => intro l m h; simp [findMatchesGo] at h
  | succ fuel ih =>
    intro l m h
    match l with
    | [] => simp [findMatchesGo] at h
    | c :: cs =>
      rw [findMatchesGo] at h
      rcases hm : matchAt (c :: cs) with - | ⟨nm, pr, rest⟩
      · rw [hm] at h
        exact ih cs m h
      · rw [hm] at h
        rcases List.mem_cons.mp h with heq | hrec
        · refine ⟨c :: cs, rest, ?_⟩
          rw [heq]
          exact hm
        · exact ih rest m hrec

theorem findMatchesGo_fuel_eq (f1 : Nat) :
    ∀ (f2 : Nat) (l : List Char), l.length ≤ f1 → l.length ≤ f2 →
      findMatchesGo f1 l = findMatchesGo f2 l := by
  induction f1 with
  | zero =>
    intro f2 l h1 h2
    have : l = [] := List.eq_nil_of_length_eq_zero (Nat.le_zero.mp h1)
    subst this
    match f2 with
    | 0 => rfl
    | _ + 1 => rfl
  | succ f1 ih =>
    intro f2 l h1 h2
    match l with
    | [] =>
      match f2 with
      | 0 => rfl
      | _ + 1 => rfl
    | c :: cs =>
      match f2 with
      | 0 => simp at h2
      | f2 + 1 =>
        rw [findMatchesGo, findMatchesGo]
        simp only [List.length_cons] at h1 h2
        rcases hm : matchAt (c :: cs) with - | ⟨nm, pr, rest⟩
        · exact ih f2 cs (by omega) (by omega)
        · have hlt := matchAt_rest_lt hm
          simp only [List.length_cons] at hlt
          show (nm, pr) :: findMatchesGo f1 rest = (nm, pr) :: findMatchesGo f2 rest
          rw [ih f2 rest (by omega) (by omega)]

theorem upper_not_space {c : Char} (h : c.isUpper = true) :
    pyIsSpace c = false := by
  by_contra hne
  rw [Bool.not_eq_false] at hne
  simp only [pyIsSpace, Bool.or_eq_true, beq_iff_eq] at hne
  rcases hne with ((((rfl | rfl) | rfl) | rfl) | rfl) | rfl <;>
    exact absurd h (by decide)

theorem sep_not_space_cases {c : Char} (h : isSepChar c = true)
    (hs : pyIsSpace c = false) : c = '.' ∨ c = '-' ∨ c = '\'' := by
  simp only [isSepChar, Bool.or_eq_true, beq_iff_eq, hs] at h
  have h' : (c = '.' ∨ c = '-') ∨ c = '\'' := by simpa using h
  exact or_assoc.mp h'

/-- C8 (amended): the scraper's output is exactly the first-in-range
occurrences of the regex matches — every accepted price lies in `[1, 60]`,
each name is kept at most once with its first in-range price, and every
accepted name consists of a leading uppercase letter followed by letters,
spaces, periods, hyphens and apostrophes. Only the FIRST token of a name
is guaranteed capitalized (the regex admits lowercase subsequent tokens),
which is the amendment forced by `c8_scrape_counterexample`. -/
theorem c8_scrape_amended (text : List Char) :
    (∀ n p, (n, p) ∈ scrape_salaries_text text ↔
        (1 ≤ p ∧ p ≤ 60 ∧ ∃ pre post, rawPairs text = pre ++ (n, p) :: post ∧
          ∀ q ∈ pre, ¬(q.1 = n ∧ 1 ≤ q.2 ∧ q.2 ≤ 60))) ∧
    ((scrape_salaries_text text).map Prod.fst).Nodup ∧
    (∀ x ∈ scrape_salaries_text text, ∃ c ws, x.1 = c :: ws ∧
        c.isUpper = true ∧
        ∀ y ∈ ws, y.isAlpha = true ∨ y = ' ' ∨ y = '.' ∨ y = '-' ∨ y = '\'') := by
  refine ⟨?_, (scrapeFilter_nodup _ []).1, ?_⟩
  · intro n p
    rw [scrape_salaries_text, mem_scrapeFilter]
    exact ⟨fun ⟨_, a, b, c⟩ => ⟨a, b, c⟩,
      fun ⟨a, b, c⟩ => ⟨List.not_mem_nil n, a, b, c⟩⟩
  · intro x hx
    have hxraw : x ∈ rawPairs text := scrapeFilter_subset _ [] x hx
    rw [rawPairs] at hxraw
    obtain ⟨m, hm, hxm⟩ := List.mem_map.mp hxraw
    obtain ⟨l', rest, hmatch⟩ := findMatchesGo_mem _ _ m hm
    obtain ⟨c, ws, hnm, hu, hws⟩ := matchAt_shape hmatch
    have hx1 : x.1 = normName (c :: ws) := by rw [← hxm, ← hnm]
    obtain ⟨ws', hn1, hn2⟩ := normName_shape (upper_not_space hu)
    refine ⟨c, ws', by rw [hx1, hn1], hu, ?_⟩
    intro y hy
    rcases hn2 y hy with hsp | ⟨hyin, hyns⟩
    · exact Or.inr (Or.inl hsp)
    · rcases List.mem_cons.mp hyin with heq | hyws
      · refine Or.inl ?_
        subst heq
        rw [Char.isAlpha, hu, Bool.true_or]
      · rcases hws y hyws with ha | hsep
        · exact Or.inl ha
        · rcases sep_not_space_cases hsep hyns with h | h | h
          · exact Or.inr (Or.inr (Or.inl h))
          · exact Or.inr (Or.inr (Or.inr (Or.inl h)))
          · exact Or.inr (Or.inr (Or.inr (Or.inr h)))

end Nascar

namespace Nascar

/-! ### Theorems: ingestion caches (C7), error handling (C9, C10) -/

/-- C7 (code violates the claim): `main` loads the already-persisted race
ids into `done_races` (printed as "will skip these"), but neither
`fetch_year` nor `fetch_race` ever consults it. With race `E1` already in
the store and the season listing pointing at `E1`'s ref, a re-run still
fetches the event detail from the remote API, contradicting "an entity
present in the cache is never re-fetched" for events. (Driver and venue
caches are consulted — see `c10_failed_driver_lookup` and
`fetch_venue` — so the event half of the claim is the failing part.) -/
theorem c7_event_refetch_bug :
    (sync_main demoRemote 4 demoStore 2020 2020).done_races =
      [("E1" : String)] ∧
    Req.event ("REF1") ∈ (sync_main demoRemote 4 demoStore 2020 2020).trace := by
  constructor
  · decide
  · decide

/-- C9 (code violates the claim): the segment loader's save step issues
`DELETE FROM segments WHERE year = ? AND segment = ?` and `INSERT INTO
segments (segment, year, race_name, slug)`, but the `segments` table
created by `setup_tables` has columns `id, year, segment_num,
race_keyword`; both statements reference non-existent columns, so SQLite
raises `OperationalError` and the save step aborts for every
`(year, segment)` input instead of completing. The two `driver_salaries`
statements do match their schema. -/
theorem c9_segments_schema_mismatch :
    execStmt segmentsSchema segmentDeleteColumns =
      SqlOutcome.operationalError ∧
    execStmt segmentsSchema segmentInsertColumns =
      SqlOutcome.operationalError ∧
    execStmt driverSalariesSchema salaryDeleteColumns = SqlOutcome.ok ∧
    execStmt driverSalariesSchema salaryInsertColumns = SqlOutcome.ok := by
  exact ⟨by decide, by decide, by decide, by decide⟩

theorem insertResult_key_mem (rs : List RaceResultRow) (r0 : RaceResultRow) :
    ∃ row ∈ insertResultIfAbsent rs r0,
      row.race_id = r0.race_id ∧ row.driver_id = r0.driver_id := by
  rw [insertResultIfAbsent]
  by_cases h : (rs.any fun x =>
      x.race_id == r0.race_id && x.driver_id == r0.driver_id) = true
  · rw [if_pos h]
    obtain ⟨x, hx, hcond⟩ := List.any_eq_true.mp h
    rw [Bool.and_eq_true, beq_iff_eq, beq_iff_eq] at hcond
    exact ⟨x, hx, hcond.1, hcond.2⟩
  · rw [if_neg h]
    exact ⟨r0, List.mem_append.mpr (Or.inr (List.mem_singleton.mpr rfl)),
      rfl, rfl⟩

theorem ensure_driver_drivers_of_fail {remote : Remote} {st : FetchState}
    {d year : Int} (ha : remote.athlete year d = none) :
    (ensure_driver remote st d year).store.drivers = st.store.drivers := by
  by_cases hin : d ∈ st.known_drivers
  · simp [ensure_driver, hin]
  · simp [ensure_driver, hin, ha, addTrace]

theorem fetchDriverStats_store (remote : Remote) (st : FetchState)
    (ref : String) : (fetchDriverStats remote st ref).2.store = st.store := by
  by_cases href : ref = ""
  · simp [fetchDriverStats, href]
  · rcases hs : remote.stats ref with - | sd <;>
      simp [fetchDriverStats, href, hs, addTrace]

/-- C10: after `ensure_driver` returns, the driver id is in the
known-driver cache whether or not the remote lookup succeeded; an id
already in the cache is an exact no-op (no fetch, no insert), so a failed
lookup is never retried within the run; the per-race result row for the
competitor is inserted regardless; and when the lookup failed and no
driver record pre-existed, the inserted result row references a
`driver_id` with no record in the drivers table. -/
theorem c10_failed_driver_lookup (remote : Remote) (st : FetchState)
    (d year : Int) (race_id : String) (p : Int × CompetitorData) :
    d ∈ (ensure_driver remote st d year).known_drivers ∧
    (d ∈ st.known_drivers → ensure_driver remote st d year = st) ∧
    (¬ d ∈ st.known_drivers → remote.athlete year d = none →
        (ensure_driver remote st d year).store = st.store ∧
        (ensure_driver remote st d year).trace =
          st.trace ++ [Req.athlete year d] ∧
        (ensure_driver remote st d year).known_drivers =
          st.known_drivers ++ [d]) ∧
    (∃ row ∈ (processCompetitor remote race_id year st p).store.race_results,
        row.race_id = race_id ∧ row.driver_id = p.1) ∧
    (remote.athlete year p.1 = none →
        ¬ p.1 ∈ st.store.drivers.map (fun x => x.id) →
        ¬ p.1 ∈ ((processCompetitor remote race_id year st p).store.drivers.map
          (fun x => x.id))) := by
  refine ⟨?_, ?_, ?_, ?_, ?_⟩
  · by_cases hin : d ∈ st.known_drivers
    · simp [ensure_driver, hin]
    · rcases ha : remote.athlete year d with - | dd <;>
        simp [ensure_driver, hin, ha, addTrace]
  · intro hin
    simp [ensure_driver, hin]
  · intro hin ha
    refine ⟨?_, ?_, ?_⟩ <;> simp [ensure_driver, hin, ha, addTrace]
  · exact insertResult_key_mem _ _
  · intro ha hnot
    have h1 : (processCompetitor remote race_id year st p).store.drivers =
        st.store.drivers := by
      have h2 := fetchDriverStats_store remote
        (ensure_driver remote st p.1 year) p.2.statsRef
      have h3 := @ensure_driver_drivers_of_fail remote st p.1 year ha
      show (fetchDriverStats remote (ensure_driver remote st p.1 year)
          p.2.statsRef).2.store.drivers = st.store.drivers
      rw [h2, h3]
    rw [h1]
    exact hnot

theorem c10_failed_driver_lookup_witness :
    (¬ (5 : Int) ∈
        (⟨⟨[], [], [], []⟩, [], [], [], []⟩ : FetchState).known_drivers) ∧
    demoRemote.athlete 2020 5 = none ∧
    ((ensure_driver demoRemote ⟨⟨[], [], [], []⟩, [], [], [], []⟩ 5
        2020).store =
      (⟨⟨[], [], [], []⟩, [], [], [], []⟩ : FetchState).store ∧
      (ensure_driver demoRemote ⟨⟨[], [], [], []⟩, [], [], [], []⟩ 5
          2020).trace =
        (⟨⟨[], [], [], []⟩, [], [], [], []⟩ : FetchState).trace ++
          [Req.athlete 2020 5] ∧
      (ensure_driver demoRemote ⟨⟨[], [], [], []⟩, [], [], [], []⟩ 5
          2020).known_drivers =
        (⟨⟨[], [], [], []⟩, [], [], [], []⟩ : FetchState).known_drivers ++
          [(5 : Int)]) ∧
    (∃ row ∈ (processCompetitor demoRemote ("E1") 2020
        ⟨⟨[], [], [], []⟩, [], [], [], []⟩
        (5, ⟨5, some 1, some 2, none, none, none, ("" : String)⟩)
        ).store.race_results,
      row.race_id = ("E1" : String) ∧ row.driver_id = 5) ∧
    (¬ (5 : Int) ∈ ((processCompetitor demoRemote ("E1") 2020
        ⟨⟨[], [], [], []⟩, [], [], [], []⟩
        (5, ⟨5, some 1, some 2, none, none, none, ("" : String)⟩)
        ).store.drivers.map (fun x => x.id))) := by
  refine ⟨by decide, rfl, ?_, ?_, ?_⟩
  · exact (c10_failed_driver_lookup demoRemote
      ⟨⟨[], [], [], []⟩, [], [], [], []⟩ 5 2020 ("E1")
      (5, ⟨5, some 1, some 2, none, none, none, ("" : String)⟩)).2.2.1
      (by decide) rfl
  · exact (c10_failed_driver_lookup demoRemote
      ⟨⟨[], [], [], []⟩, [], [], [], []⟩ 5 2020 ("E1")
      (5, ⟨5, some 1, some 2, none, none, none, ("" : String)⟩)).2.2.2.1
  · exact (c10_failed_driver_lookup demoRemote
      ⟨⟨[], [], [], []⟩, [], [], [], []⟩ 5 2020 ("E1")
      (5, ⟨5, some 1, some 2, none, none, none, ("" : String)⟩)).2.2.2.2
      rfl (by decide)

end Nascar
